import Mathlib

/-!
# Verification of the MoodLoop video-rendering subsystem

Shallow embedding of `src/media/VideoRenderer.py` (and the legacy
`src/core/VideoRenderer.py`) together with proofs of the specified
properties: the Ken Burns zoom interpolator, the text wrapping and
drawtext escaping utilities, the capability probe, the filter-graph and
command assembly, and the subprocess outcome classification.

Python strings are modelled as `List Char` (one entry per code point,
matching Python string indexing); machine floats are modelled as exact
rationals `ℚ`; fallible code returns `Except String`.
-/

namespace MoodLoop

/-- The apostrophe character (avoids a quoted literal). -/
abbrev qc : Char := Char.ofNat 39

/-- Backslash character. -/
abbrev bsl : Char := '\\'

/-- Whitespace characters recognised by Python `str.strip` / `re` `\s`
(the ASCII whitespace set plus the common Unicode members that matter
for this code path). -/
def isPyWS (c : Char) : Bool :=
  c == ' ' || c == '\t' || c == '\n' || c == '\x0b' || c == '\x0c' || c == '\r' ||
  c == '\x1c' || c == '\x1d' || c == '\x1e' || c == '\x1f' ||
  c == '\x85' || c == '\xa0' || c == '\u2028' || c == '\u2029'

/-- Line-boundary characters of Python `str.splitlines`. -/
def isLineBreak (c : Char) : Bool :=
  c == '\n' || c == '\r' || c == '\x0b' || c == '\x0c' ||
  c == '\x1c' || c == '\x1d' || c == '\x1e' || c == '\x85' ||
  c == '\u2028' || c == '\u2029'

/-- Worker for `pySplitlines`: accumulates the current line reversed;
the flag records that the previous character was a carriage return, so
that a following newline is swallowed (`\r\n` is one boundary). -/
def pySplitlinesGo : List Char → List Char → Bool → List (List Char)
  | [], acc, _ => if acc.isEmpty then [] else [acc.reverse]
  | c :: rest, acc, afterCR =>
    if afterCR ∧ c = '\n' then pySplitlinesGo rest [] false
    else if c = '\r' then acc.reverse :: pySplitlinesGo rest [] true
    else if isLineBreak c then acc.reverse :: pySplitlinesGo rest [] false
    else pySplitlinesGo rest (c :: acc) false

/-- Python `str.splitlines()`: split at line boundaries, `\r\n` counting
as a single boundary, with no trailing empty line. -/
def pySplitlines (l : List Char) : List (List Char) := pySplitlinesGo l [] false

/-- Python `str.strip()` over the modelled whitespace set. -/
def pyStrip (l : List Char) : List Char :=
  ((l.dropWhile isPyWS).reverse.dropWhile isPyWS).reverse

/-- Python `str.expandtabs(8)` with column tracking (newline and carriage
return reset the column). -/
def pyExpandtabs : List Char → Nat → List Char
  | [], _ => []
  | c :: rest, col =>
    if c = '\t' then
      let pad := 8 - col % 8
      List.replicate pad ' ' ++ pyExpandtabs rest (col + pad)
    else if c = '\n' ∨ c = '\r' then c :: pyExpandtabs rest 0
    else c :: pyExpandtabs rest (col + 1)

/-- The `unicode_whitespace_trans` table of `textwrap`: each of
tab, newline, vertical tab, form feed, carriage return and space is
replaced by a space. -/
def pyTranslateWS (l : List Char) : List Char :=
  l.map fun c =>
    if c = '\t' ∨ c = '\n' ∨ c = '\x0b' ∨ c = '\x0c' ∨ c = '\r' ∨ c = ' '
    then ' ' else c

/-- `TextWrapper._munge_whitespace` with the default options
(`expand_tabs=True`, `tabsize=8`, `replace_whitespace=True`). -/
def pyMunge (l : List Char) : List Char := pyTranslateWS (pyExpandtabs l 0)

/-! ## The `textwrap` chunk splitter (`TextWrapper.wordsep_re`)

The default word-separating regex splits a munged paragraph into
whitespace runs, em-dash runs between word characters, and words, where
a word may additionally end just after an interior hyphen that is
preceded by two letters (or letter-hyphen-letter) and followed by a
letter, optional hyphen and letter, or just before an em-dash run.
Lookbehind and lookahead inspect the whole string, so the splitter below
works with absolute positions. -/

/-- Character at absolute position `i`, with a sentinel (NUL: neither a
word character, whitespace, nor a hyphen) out of range. -/
def chAt (s : List Char) (i : Nat) : Char := s.getD i '\x00'

/-- Python regex `[^\d\W]` (a word character that is not a digit),
restricted to the ASCII letters plus underscore. -/
def isAlphaU (c : Char) : Bool := c.isAlpha || c == '_'

/-- Python regex `\w`, restricted to ASCII letters, digits and underscore. -/
def isWordChar (c : Char) : Bool := c.isAlphanum || c == '_'

/-- The punctuation class `[\w!"&.,?]` plus apostrophe that may precede
an em-dash break. -/
def isEmdashPunct (c : Char) : Bool :=
  isWordChar c || c == '!' || c == '"' || c == qc || c == '&' || c == '.' ||
  c == ',' || c == '?'

/-- Worker for `hyphenRunLen`: the first argument is the suffix
`s.drop p`, giving structural recursion. -/
def hyphenRunLenAux (s : List Char) : List Char → Nat → Nat
  | [], _ => 0
  | _ :: tl, p => if chAt s p = '-' then 1 + hyphenRunLenAux s tl (p + 1) else 0

/-- Length of the maximal run of hyphens starting at position `p`. -/
def hyphenRunLen (s : List Char) (p : Nat) : Nat :=
  hyphenRunLenAux s (s.drop p) p

/-- Worker for `wsEnd` over the suffix `s.drop p`. -/
def wsEndAux (s : List Char) : List Char → Nat → Nat
  | [], p => p
  | _ :: tl, p => if isPyWS (chAt s p) then wsEndAux s tl (p + 1) else p

/-- End (exclusive) of the maximal whitespace run starting at `p`. -/
def wsEnd (s : List Char) (p : Nat) : Nat := wsEndAux s (s.drop p) p

/-- Lookbehind of the hyphenated-word branch:
`(?<=[^\d\W]{2}-)` or `(?<=[^\d\W]-[^\d\W]-)` at position `p`. -/
def hyphenLookbehind (s : List Char) (p : Nat) : Bool :=
  (decide (3 ≤ p) && isAlphaU (chAt s (p - 3)) && isAlphaU (chAt s (p - 2))) ||
  (decide (4 ≤ p) && isAlphaU (chAt s (p - 4)) && (chAt s (p - 3) == '-') &&
    isAlphaU (chAt s (p - 2)))

/-- Lookahead of the hyphenated-word branch: `(?=[^\d\W]-?[^\d\W])`. -/
def hyphenLookahead (s : List Char) (p : Nat) : Bool :=
  isAlphaU (chAt s p) &&
    (isAlphaU (chAt s (p + 1)) ||
      ((chAt s (p + 1) == '-') && isAlphaU (chAt s (p + 2))))

/-- Word may end at `p` via the hyphenated-word alternative: the last
consumed character is a hyphen with the proper context. -/
def condHyphen (s : List Char) (p : Nat) : Bool :=
  decide (1 ≤ p) && (chAt s (p - 1) == '-') && hyphenLookbehind s p &&
    hyphenLookahead s p

/-- Word may end at `p` because the next character is whitespace
(`(?=\s|\Z)`; end-of-string is handled by the caller). -/
def condWS (s : List Char) (p : Nat) : Bool := isPyWS (chAt s p)

/-- Word may end at `p` just before an em-dash run:
`(?<=[\w!"&.,?])(?=-{2,}\w)` (the class also holds apostrophe). -/
def condEmdash (s : List Char) (p : Nat) : Bool :=
  decide (1 ≤ p) && isEmdashPunct (chAt s (p - 1)) && (chAt s p == '-') &&
    (chAt s (p + 1) == '-') && isWordChar (chAt s (p + hyphenRunLen s p))

/-- Worker for `findChunkEnd` over the suffix `s.drop p`. -/
def findChunkEndAux (s : List Char) : List Char → Nat → Nat
  | [], _ => s.length
  | _ :: tl, p =>
    if condHyphen s p || condWS s p || condEmdash s p then p
    else findChunkEndAux s tl (p + 1)

/-- Minimal end (exclusive) of a word chunk starting before `p`
(non-greedy `\S+?` followed by the end-of-word alternatives). -/
def findChunkEnd (s : List Char) (p : Nat) : Nat :=
  findChunkEndAux s (s.drop p) p

/-- Top-level em-dash alternative at position `i`:
`(?<=\w)-{2,}(?=\w)` with a maximal hyphen run. -/
def emdashStartB (s : List Char) (i : Nat) : Bool :=
  decide (1 ≤ i) && isWordChar (chAt s (i - 1)) &&
    decide (2 ≤ hyphenRunLen s i) && isWordChar (chAt s (i + hyphenRunLen s i))

/-- The slice of `s` from `i` (inclusive) to `j` (exclusive). -/
def sliceCL (s : List Char) (i j : Nat) : List Char := (s.drop i).take (j - i)

/-- Fuelled scanner producing the chunks of `TextWrapper._split` in
order, starting at position `i`. -/
def splitChunksGo (s : List Char) : Nat → Nat → List (List Char)
  | 0, _ => []
  | fuel + 1, i =>
    if i < s.length then
      if isPyWS (chAt s i) then
        let j := wsEnd s (i + 1)
        sliceCL s i j :: splitChunksGo s fuel j
      else if emdashStartB s i then
        let j := i + hyphenRunLen s i
        sliceCL s i j :: splitChunksGo s fuel j
      else
        let j := findChunkEnd s (i + 1)
        sliceCL s i j :: splitChunksGo s fuel j
    else []

/-- `TextWrapper._split`: the list of chunks of a munged paragraph. -/
def splitChunks (s : List Char) : List (List Char) :=
  splitChunksGo s s.length 0

/-! ## The greedy line packer (`TextWrapper._wrap_chunks`) -/

/-- Total character count of a list of chunks. -/
def lensum (l : List (List Char)) : Nat := (l.map List.length).sum

/-- A chunk is pure whitespace (`chunk.strip() == ""`). -/
def isAllWS (c : List Char) : Bool := c.all isPyWS

/-- Greedy packing: take chunks while the running length stays within
`width`; returns the taken prefix and the remainder. -/
def packGreedy (width : Nat) : Nat → List (List Char) → List (List Char) × List (List Char)
  | _, [] => ([], [])
  | curLen, c :: rest =>
    if curLen + c.length ≤ width then
      let pr := packGreedy width (curLen + c.length) rest
      (c :: pr.1, pr.2)
    else ([], c :: rest)

/-- Python `chunk.rfind(hyphen, 0, hi)`: the largest index below
`min hi chunk.length` holding a hyphen, if any. -/
def pyRfindHyphen (chunk : List Char) (hi : Nat) : Option Nat :=
  (List.range (min hi chunk.length)).reverse.find? fun k => chunk.getD k ' ' == '-'

/-- `TextWrapper._handle_long_word` with `break_long_words=True` and
`break_on_hyphens=True`: split the head chunk at the space left on the
current line, preferring a break just after an interior hyphen. Returns
the piece placed on the current line and the remainder of the chunk. -/
def handleLongWord (width curLen : Nat) (chunk : List Char) : List Char × List Char :=
  let spaceLeft := if width < 1 then 1 else width - curLen
  let endIdx :=
    if spaceLeft < chunk.length then
      match pyRfindHyphen chunk spaceLeft with
      | some h =>
        if 0 < h ∧ (chunk.take h).any (fun c => c ≠ '-') then h + 1 else spaceLeft
      | none => spaceLeft
    else spaceLeft
  (chunk.take endIdx, chunk.drop endIdx)

/-- Drop a trailing all-whitespace element from the current line
(`drop_whitespace=True`). -/
def dropTrailWS (line : List (List Char)) : List (List Char) :=
  match line.getLast? with
  | some last => if isAllWS last then line.dropLast else line
  | none => line

/-- The long-word stage of one `_wrap_chunks` iteration: if the next
pending chunk does not fit on an empty slice of the line and is longer
than the width, break it with `_handle_long_word`. -/
def wrapFit (width : Nat) (pk : List (List Char) × List (List Char)) :
    List (List Char) × List (List Char) :=
  match pk.2 with
  | c :: r =>
    if width < c.length then
      let pc := handleLongWord width (lensum pk.1) c
      (pk.1 ++ [pc.1], pc.2 :: r)
    else (pk.1, c :: r)
  | [] => (pk.1, [])

/-- One iteration of the `_wrap_chunks` outer loop: drop a leading
whitespace chunk once a line exists, pack greedily, break a long word,
and drop a trailing whitespace chunk; returns the chunks of the next
line (possibly empty, meaning no line is emitted) and the remaining
chunks. `emitted` records whether a line has been produced before
(Python tests `lines`). -/
def wrapStep (width : Nat) (emitted : Bool) (chunks : List (List Char)) :
    List (List Char) × List (List Char) :=
  match chunks with
  | [] => ([], [])
  | c0 :: rest0 =>
    let chunks1 := if emitted && isAllWS c0 then rest0 else c0 :: rest0
    let hl := wrapFit width (packGreedy width 0 chunks1)
    (dropTrailWS hl.1, hl.2)

/-- Fuelled outer loop of `_wrap_chunks`. -/
def wrapChunksGo (width : Nat) : Nat → Bool → List (List Char) → List (List Char)
  | 0, _, _ => []
  | _ + 1, _, [] => []
  | fuel + 1, emitted, c0 :: rest0 =>
    let st := wrapStep width emitted (c0 :: rest0)
    let out := wrapChunksGo width fuel (emitted || !st.1.isEmpty) st.2
    if st.1.isEmpty then out else st.1.flatten :: out

/-- `TextWrapper._wrap_chunks` (with `max_lines=None`, empty indents):
the fuel bounds the number of iterations; each iteration strictly
decreases `chunks.length + lensum chunks`. -/
def wrapChunks (width : Nat) (chunks : List (List Char)) : List (List Char) :=
  wrapChunksGo width (chunks.length + lensum chunks + 1) false chunks

/-- `textwrap.wrap(text, width)` with default options; raises
`ValueError` when the width is not positive. -/
def pyWrap (width : Nat) (text : List Char) : Except String (List (List Char)) :=
  if width = 0 then .error "ValueError: invalid width 0 (must be > 0)"
  else .ok (wrapChunks width (splitChunks (pyMunge text)))

/-- The paragraph loop of `VideoRenderer._wrap_text`: strip each
paragraph, skip the empty ones, wrap the rest and concatenate. -/
def wrapParagraphs (width : Nat) : List (List Char) → Except String (List (List Char))
  | [] => .ok []
  | p :: rest =>
    let ps := pyStrip p
    if ps.isEmpty then wrapParagraphs width rest
    else
      match pyWrap width ps with
      | .error e => .error e
      | .ok w =>
        match wrapParagraphs width rest with
        | .error e => .error e
        | .ok r => .ok (w ++ r)

/-- `VideoRenderer._wrap_text` (src/media/VideoRenderer.py, lines
624-650): split on line breaks, wrap every non-empty paragraph, and fall
back to the single stripped text when no line was produced. -/
def wrap_text (text : String) (max_chars : Nat) : Except String (List String) :=
  match wrapParagraphs max_chars (pySplitlines text.data) with
  | .error e => .error e
  | .ok lines =>
    if lines.isEmpty then .ok [String.mk (pyStrip text.data)]
    else .ok (lines.map String.mk)

/-! ## Drawtext escaping (`VideoRenderer._escape_drawtext`) -/

/-- Python `str.replace` for a single-character pattern. -/
def replaceChar (l : List Char) (c : Char) (r : List Char) : List Char :=
  l.flatMap fun x => if x = c then r else [x]

/-- `VideoRenderer._escape_drawtext` (src/media/VideoRenderer.py, lines
652-672): double each backslash, then prefix each single quote, then
each colon, with a backslash — in that order. -/
def escape_drawtext (s : String) : String :=
  let t1 := replaceChar s.data bsl [bsl, bsl]
  let t2 := replaceChar t1 qc [bsl, qc]
  let t3 := replaceChar t2 ':' [bsl, ':']
  String.mk t3

/-- Image of one input character under the escaping rule as the spec
states it: a backslash becomes two backslashes, a single quote or colon
gains a leading backslash, anything else is unchanged. -/
def escBlock (c : Char) : List Char :=
  if c = bsl then [bsl, bsl]
  else if c = qc then [bsl, qc]
  else if c = ':' then [bsl, ':']
  else [c]

/-- Scanner for the external drawtext expression language: a backslash
escapes the next character; an unescaped quote or colon would terminate
the text directive early; a trailing lone backslash would swallow the
directive's closing quote. Returns `true` when none of these occur. -/
def escSafe : List Char → Bool
  | [] => true
  | c :: rest =>
    if c = bsl then
      match rest with
      | [] => false
      | _ :: r => escSafe r
    else if c = qc ∨ c = ':' then false
    else escSafe rest

/-! ## Capability probe (`VideoRenderer._detect_ffmpeg_major`) -/

/-- Outcome of invoking the external binary with `-version`: either the
invocation failed (unreachable binary, timeout, any exception) or it
produced some text on stdout/stderr. -/
inductive ProbeOutcome where
  | failure
  | output (s : String)

/-- Numeric value of a list of decimal digit characters. -/
def digitsToNat (ds : List Char) : Nat :=
  ds.foldl (fun a c => a * 10 + (c.toNat - 48)) 0

/-- Strip a literal prefix, returning the remainder on success. -/
def dropLit : List Char → List Char → Option (List Char)
  | [], l => some l
  | _ :: _, [] => none
  | c :: cs, x :: xs => if x = c then dropLit cs xs else none

/-- The alternation `(?:N-\d+-\w+|([\d]+))` applied at the current
position: `some none` when the unversioned development-tag branch
matches (no capture), `some (some major)` when the digit branch
captures, `none` when neither matches. -/
def matchVersionTail (l : List Char) : Option (Option Nat) :=
  let ds := l.takeWhile Char.isDigit
  let alt2 : Option (Option Nat) :=
    if ds.isEmpty then none else some (some (digitsToNat ds))
  match l with
  | c1 :: c2 :: r =>
    if c1 = 'N' ∧ c2 = '-' then
      let nds := r.takeWhile Char.isDigit
      if nds.isEmpty then alt2
      else
        match r.drop nds.length with
        | c3 :: r2 =>
          if c3 = '-' ∧ ¬ (r2.takeWhile isWordChar).isEmpty then some none else alt2
        | [] => alt2
    else alt2
  | _ => alt2

/-- The literal token of the version regex. -/
def versionLit : List Char := ['v', 'e', 'r', 's', 'i', 'o', 'n']

/-- Attempt the regex `version\s+(?:N-\d+-\w+|([\d]+))` at the head of
the list. -/
def matchVersionHere (l : List Char) : Option (Option Nat) :=
  match dropLit versionLit l with
  | none => none
  | some r =>
    match r with
    | [] => none
    | c :: r2 =>
      if isPyWS c then matchVersionTail (r2.dropWhile isPyWS) else none

/-- Leftmost search of the version regex over a line. -/
def searchVersion : List Char → Option (Option Nat)
  | [] => none
  | c :: rest =>
    match matchVersionHere (c :: rest) with
    | some r => some r
    | none => searchVersion rest

/-- `VideoRenderer._detect_ffmpeg_major` (src/media/VideoRenderer.py,
lines 695-726): parse the first output line for a numeric major version
after the token `version`; the development-tag branch, an absent match,
an empty output (IndexError) and every invocation failure all yield 0. -/
def detect_ffmpeg_major : ProbeOutcome → Nat
  | .failure => 0
  | .output s =>
    match pySplitlines s.data with
    | [] => 0
    | firstLine :: _ =>
      match searchVersion firstLine with
      | some (some major) => major
      | some none => 0
      | none => 0

/-! ## Numeric helpers -/

/-- Python `int()` applied to a float: truncation toward zero. -/
def pyTrunc (q : ℚ) : Int := if q < 0 then Int.ceil q else Int.floor q

/-- Decimal expansion of a rational in `[0, 1)` (up to 17 fractional
digits, matching the shortest-roundtrip reprs arising here). -/
def fmtQFrac : ℚ → Nat → String
  | _, 0 => ""
  | q, n + 1 =>
    if q = 0 then ""
    else
      let d : Int := Int.floor (q * 10)
      toString d ++ fmtQFrac (q * 10 - (d : ℚ)) n

/-- Rendering of a Python float into an f-string (always with a decimal
point, e.g. `1.0`, `1.08`, `29.0`). -/
def fmtQ (q : ℚ) : String :=
  let a := if q < 0 then "-" else ""
  let aq := |q|
  let ip : Int := Int.floor aq
  let fr := fmtQFrac (aq - (ip : ℚ)) 17
  a ++ toString ip ++ "." ++ (if fr = "" then "0" else fr)

/-- Python `round(q, 2)`. -/
def round2 (q : ℚ) : ℚ := ((round (q * 100) : Int) : ℚ) / 100

/-- The single-quote character as a one-character string. -/
abbrev qS : String := String.mk [qc]

/-! ## Configuration and result models -/

/-- `KenBurnsConfig` (src/media/VideoRenderer.py, lines 62-88). -/
structure KenBurnsConfig where
  zoom_start : ℚ := 1
  zoom_end : ℚ := 27 / 25
  x_drift_px : Int := 0
  y_drift_px : Int := 0
  ease : Bool := true
deriving Repr, DecidableEq

/-- `TextConfig` (src/media/VideoRenderer.py, lines 91-127). -/
structure TextConfig where
  text : String
  font_path : Option String := none
  font_size : Int := 68
  font_color : String := "white"
  box : Bool := true
  box_color : String := "black@0.45"
  box_border : Int := 28
  line_spacing : Int := 12
  max_chars : Nat := 28
deriving Repr, DecidableEq

/-- `RenderResult` (src/media/VideoRenderer.py, lines 130-159), with the
dataclass defaults. -/
structure RenderResult where
  output_path : String
  success : Bool
  duration_sec : Int := 30
  width : Int := 1080
  height : Int := 1920
  file_size_mb : ℚ := 0
  error_message : Option String := none
deriving Repr, DecidableEq

/-- The renderer instance state fixed at construction
(src/media/VideoRenderer.py, lines 193-224): configuration plus the
capability tier probed once and cached. -/
structure Renderer where
  ffmpeg_path : String := "ffmpeg"
  duration_sec : Int := 30
  fps : Int := 30
  fade_sec : ℚ := 1
  ffmpeg_major : Nat := 0
deriving Repr, DecidableEq

/-! ## Filter-graph builders -/

/-- Total output frame count `duration_sec * fps`. -/
def total_frames (r : Renderer) : Int := r.duration_sec * r.fps

/-- The Ken Burns zoom interpolator: denotation of the `zoompan` zoom
expression emitted at src/media/VideoRenderer.py line 423,
`min(zoom_start + (zoom_end - zoom_start) * frame / total_frames, zoom_end)`. -/
def zoom (zs ze tf frame : ℚ) : ℚ := min (zs + (ze - zs) * frame / tf) ze

/-- The `pad_factor` working headroom of `_vf_ken_burns` (line 441):
`max(zoom_end, 1.0) + 0.02`. -/
def pad_factor (z_end : ℚ) : ℚ := max z_end 1 + 1 / 50

/-- Working width of the pre-scale step (line 442):
`int(_WIDTH * pad_factor / 2) * 2`. -/
def scale_w (z_end : ℚ) : Int := pyTrunc ((1080 : ℚ) * pad_factor z_end / 2) * 2

/-- Working height of the pre-scale step (line 443):
`int(_HEIGHT * pad_factor / 2) * 2`. -/
def scale_h (z_end : ℚ) : Int := pyTrunc ((1920 : ℚ) * pad_factor z_end / 2) * 2

/-- One `drawtext` filter expression for a wrapped line (lines 534-543). -/
def drawtextLine (font_arg box_arg : String) (font_size : Int) (font_color : String)
    (y_pos : Int) (line : String) : String :=
  "drawtext=text=" ++ qS ++ escape_drawtext line ++ qS ++ font_arg ++
  ":fontsize=" ++ toString font_size ++ ":fontcolor=" ++ font_color ++
  ":x=(w-text_w)/2:y=" ++ toString y_pos ++ box_arg ++
  ":shadowx=2:shadowy=2:shadowcolor=black@0.65"

/-- The enumerated drawtext filter list (lines 530-544). -/
def drawtextFilters (font_arg box_arg : String) (font_size : Int) (font_color : String)
    (y_start line_h : Int) : Nat → List String → List String
  | _, [] => []
  | i, line :: rest =>
    drawtextLine font_arg box_arg font_size font_color (y_start + (i : Int) * line_h) line ::
      drawtextFilters font_arg box_arg font_size font_color y_start line_h (i + 1) rest

/-- Path normalisation for `fontfile` (line 520): forward slashes and
escaped colons. -/
def normFontPath (p : String) : String :=
  String.mk (replaceChar (replaceChar p.data bsl ['/']) ':' [bsl, ':'])

/-- `VideoRenderer._build_drawtext_chain` (lines 489-546). `fsFont`
models `Path(...).exists()` for the optional font file. -/
def build_drawtext_chain (cfg : TextConfig) (fsFont : String → Bool) :
    Except String String :=
  match wrap_text cfg.text cfg.max_chars with
  | .error e => .error e
  | .ok lines =>
    if lines.isEmpty then .ok "null"
    else
      let line_h := cfg.font_size + cfg.line_spacing
      let total_text_h := line_h * (lines.length : Int)
      let centre_y : Int := pyTrunc ((1920 : ℚ) * (6 / 10))
      let y_start := centre_y - Int.fdiv total_text_h 2
      let font_arg :=
        match cfg.font_path with
        | some p => if fsFont p then ":fontfile=" ++ qS ++ normFontPath p ++ qS else ""
        | none => ""
      let box_arg :=
        if cfg.box then
          ":box=1:boxcolor=" ++ cfg.box_color ++ ":boxborderw=" ++ toString cfg.box_border
        else ""
      .ok (String.intercalate ","
        (drawtextFilters font_arg box_arg cfg.font_size cfg.font_color y_start line_h 0 lines))

/-- `VideoRenderer._vf_ken_burns` (lines 403-455): the modern filter
chain `scale,zoompan,drawtext...,fade,fade`. -/
def vf_ken_burns (r : Renderer) (kb : KenBurnsConfig) (cfg : TextConfig)
    (fsFont : String → Bool) : Except String String :=
  let tf := total_frames r
  let fade_out_start := (r.duration_sec : ℚ) - r.fade_sec
  let zoom_expr := qS ++ "min(" ++ fmtQ kb.zoom_start ++ "+(" ++ fmtQ kb.zoom_end ++
    "-" ++ fmtQ kb.zoom_start ++ ")*on/" ++ toString tf ++ "," ++ fmtQ kb.zoom_end ++
    ")" ++ qS
  let x_expr :=
    if kb.x_drift_px ≠ 0 then
      qS ++ "(iw-ow)/2+" ++ toString kb.x_drift_px ++ "*on/" ++ toString tf ++ qS
    else qS ++ "(iw-ow)/2" ++ qS
  let y_expr :=
    if kb.y_drift_px ≠ 0 then
      qS ++ "(ih-oh)/2+" ++ toString kb.y_drift_px ++ "*on/" ++ toString tf ++ qS
    else qS ++ "(ih-oh)/2" ++ qS
  let zoompan := "zoompan=z=" ++ zoom_expr ++ ":x=" ++ x_expr ++ ":y=" ++ y_expr ++
    ":d=" ++ toString tf ++ ":s=1080x1920:fps=" ++ toString r.fps
  let scale := "scale=" ++ toString (scale_w kb.zoom_end) ++ ":" ++
    toString (scale_h kb.zoom_end) ++ ":force_original_aspect_ratio=increase,crop=" ++
    toString (scale_w kb.zoom_end) ++ ":" ++ toString (scale_h kb.zoom_end)
  match build_drawtext_chain cfg fsFont with
  | .error e => .error e
  | .ok drawtext_filters =>
    let vfade := "fade=t=in:st=0:d=" ++ fmtQ r.fade_sec ++ ",fade=t=out:st=" ++
      fmtQ fade_out_start ++ ":d=" ++ fmtQ r.fade_sec
    .ok (scale ++ "," ++ zoompan ++ "," ++ drawtext_filters ++ "," ++ vfade)

/-- `VideoRenderer._vf_compat` (lines 457-487): the legacy chain
`scale,crop,drawtext...,fade,fade` with no animation. -/
def vf_compat (r : Renderer) (cfg : TextConfig) (fsFont : String → Bool) :
    Except String String :=
  let fade_out_start := (r.duration_sec : ℚ) - r.fade_sec
  let scale := "scale=1080:1920:force_original_aspect_ratio=increase,crop=1080:1920"
  match build_drawtext_chain cfg fsFont with
  | .error e => .error e
  | .ok drawtext_filters =>
    let vfade := "fade=t=in:st=0:d=" ++ fmtQ r.fade_sec ++ ",fade=t=out:st=" ++
      fmtQ fade_out_start ++ ":d=" ++ fmtQ r.fade_sec
    .ok (scale ++ "," ++ drawtext_filters ++ "," ++ vfade)

/-- `VideoRenderer._build_command` (lines 324-401): strategy selection
by the cached tier, the shared audio chain, and the full argument list. -/
def build_command (r : Renderer) (background_path music_path output_path : String)
    (cfg : TextConfig) (kb : KenBurnsConfig) (fsFont : String → Bool) :
    Except String (List String) :=
  match (if 4 ≤ r.ffmpeg_major then vf_ken_burns r kb cfg fsFont
         else vf_compat r cfg fsFont) with
  | .error e => .error e
  | .ok vf =>
    let fade_out_start := (r.duration_sec : ℚ) - r.fade_sec
    let af := "atrim=0:" ++ toString r.duration_sec ++ ",asetpts=PTS-STARTPTS," ++
      "afade=t=in:st=0:d=" ++ fmtQ r.fade_sec ++ ",afade=t=out:st=" ++
      fmtQ fade_out_start ++ ":d=" ++ fmtQ r.fade_sec
    .ok [r.ffmpeg_path, "-y", "-loop", "1", "-i", background_path, "-i", music_path,
      "-t", toString r.duration_sec, "-vf", vf, "-af", af,
      "-c:v", "libx264", "-preset", "medium", "-crf", "22",
      "-c:a", "aac", "-b:a", "192k", "-pix_fmt", "yuv420p",
      "-r", toString r.fps, "-shortest", "-movflags", "+faststart", output_path]

/-! ## Process execution (`VideoRenderer._run_ffmpeg`) -/

/-- Observable outcome of the spawned external process: it timed out,
`subprocess.run` raised some other exception, or it exited with a status
code after emitting text on standard error. -/
inductive ProcOutcome where
  | timeout
  | subprocessError (msg : String)
  | exited (code : Int) (stderr : String)
deriving Repr, DecidableEq

/-- State of the output path on disk after the process ran. -/
structure FileSys where
  outputExists : Bool
  outputSize : Nat
deriving Repr, DecidableEq

/-- Python slice `s[-n:]`. -/
def strTail (s : String) (n : Nat) : String :=
  String.mk (s.data.drop (s.data.length - n))

/-- `VideoRenderer._run_ffmpeg` (src/media/VideoRenderer.py, lines
552-618). Timeouts and subprocess exceptions are caught and returned as
failed results; a non-zero exit returns a failed result carrying the
600-character stderr tail; a zero exit consults `output_path.stat()`,
which raises (modelled as `Except.error`) when the file is absent. -/
def run_ffmpeg (r : Renderer) (o : ProcOutcome) (fs : FileSys) (output_path : String) :
    Except String RenderResult :=
  match o with
  | .timeout =>
    .ok { output_path := output_path, success := false,
          error_message := some ("FFmpeg timed out after " ++
            toString (r.duration_sec * 15) ++ "s") }
  | .subprocessError m =>
    .ok { output_path := output_path, success := false,
          error_message := some ("FFmpeg subprocess error: " ++ m) }
  | .exited code stderr =>
    if code ≠ 0 then
      .ok { output_path := output_path, success := false,
            error_message := some (strTail stderr 600) }
    else if fs.outputExists then
      .ok { output_path := output_path, success := true,
            duration_sec := r.duration_sec, width := 1080, height := 1920,
            file_size_mb := round2 ((fs.outputSize : ℚ) / 1048576) }
    else
      .error ("FileNotFoundError: stat of missing output " ++ output_path)

/-- `VideoRenderer._verify_ffmpeg` (lines 674-693): the only raising
failure, at construction, when `shutil.which` cannot resolve the binary. -/
def verify_ffmpeg (which : Option String) (ffmpeg_path : String) : Except String Unit :=
  match which with
  | none => .error ("FFmpeg not found at " ++ ffmpeg_path)
  | some _ => .ok ()

/-! ## The legacy renderer (`src/core/VideoRenderer.py`) -/

/-- `RenderResult` of src/core/VideoRenderer.py (lines 51-77): no
file-size field, no defaults for the geometry. -/
structure CoreRenderResult where
  output_path : String
  duration_sec : Int
  width : Int
  height : Int
  success : Bool
  error_message : Option String := none
deriving Repr, DecidableEq

/-- Outcome of the Pillow compositing step preceding the encode
(src/core/VideoRenderer.py, lines 179-196). -/
inductive OverlayOutcome where
  | ok
  | raises (msg : String)
deriving Repr, DecidableEq

/-- `VideoRenderer._ffmpeg_encode` of src/core/VideoRenderer.py (lines
211-332): like the media renderer but with a 500-character stderr tail,
a `(no stderr)` placeholder, timeout factor 10, and no size reporting. -/
def core_ffmpeg_encode (r : Renderer) (o : ProcOutcome) (fs : FileSys)
    (output_path : String) : Except String CoreRenderResult :=
  match o with
  | .timeout =>
    .ok { output_path := output_path, duration_sec := r.duration_sec,
          width := 1080, height := 1920, success := false,
          error_message := some ("FFmpeg timed out after " ++
            toString (r.duration_sec * 10) ++ "s") }
  | .subprocessError m =>
    .ok { output_path := output_path, duration_sec := r.duration_sec,
          width := 1080, height := 1920, success := false,
          error_message := some ("FFmpeg subprocess error: " ++ m) }
  | .exited code stderr =>
    if code ≠ 0 then
      .ok { output_path := output_path, duration_sec := r.duration_sec,
            width := 1080, height := 1920, success := false,
            error_message := some (if stderr = "" then "(no stderr)"
              else strTail stderr 500) }
    else if fs.outputExists then
      .ok { output_path := output_path, duration_sec := r.duration_sec,
            width := 1080, height := 1920, success := true }
    else
      .error ("FileNotFoundError: stat of missing output " ++ output_path)

/-- `VideoRenderer.render` of src/core/VideoRenderer.py (lines 142-205):
a compositing failure is caught and returned as a failed result
(the pre-flight failure of the spec); otherwise the encode runs. -/
def core_render (r : Renderer) (ov : OverlayOutcome) (o : ProcOutcome) (fs : FileSys)
    (output_path : String) : Except String CoreRenderResult :=
  match ov with
  | .raises m =>
    .ok { output_path := output_path, duration_sec := r.duration_sec,
          width := 1080, height := 1920, success := false,
          error_message := some ("TextOverlay compositing failed: " ++ m) }
  | .ok => core_ffmpeg_encode r o fs output_path

/-! ## Spec-side definitions

These transcribe wording of spec.md (never the source) and are compared
against the code-side definitions above. -/

/-- Spec side (§4.2): a value rounded to the nearest even integer. -/
def nearestEven (x : ℚ) : Int := 2 * round (x / 2)

/-- Spec side: a value rounded down to an even integer (what the code
actually computes with `int(x / 2) * 2` for positive `x`). -/
def roundDownEven (x : ℚ) : Int := 2 * Int.floor (x / 2)

/-- Non-whitespace characters of a string, in order (the character
content of the token stream). -/
def nonWS (l : List Char) : List Char := l.filter fun c => !(isPyWS c)

/-- Worker for `pyTokens`. -/
def pyTokensGo : List Char → List Char → List (List Char)
  | [], acc => if acc.isEmpty then [] else [acc.reverse]
  | c :: rest, acc =>
    if isPyWS c then
      if acc.isEmpty then pyTokensGo rest [] else acc.reverse :: pyTokensGo rest []
    else pyTokensGo rest (c :: acc)

/-- The whitespace-separated tokens of a text (spec §4.3: the token
stream of the input). -/
def pyTokens (l : List Char) : List (List Char) := pyTokensGo l []

/-- Spec side (§4.4): the pre-scale component of the modern strategy. -/
def specKBPrescale (kb : KenBurnsConfig) : String :=
  "scale=" ++ toString (scale_w kb.zoom_end) ++ ":" ++ toString (scale_h kb.zoom_end) ++
  ":force_original_aspect_ratio=increase,crop=" ++ toString (scale_w kb.zoom_end) ++
  ":" ++ toString (scale_h kb.zoom_end)

/-- Spec side (§4.4, §4.2): the Ken Burns zoom/pan animation evaluated
over every output frame (`d = total_frames` at the output frame rate),
with the interpolator expressions of §4.2. -/
def specZoompan (r : Renderer) (kb : KenBurnsConfig) : String :=
  "zoompan=z=" ++ (qS ++ "min(" ++ fmtQ kb.zoom_start ++ "+(" ++ fmtQ kb.zoom_end ++
    "-" ++ fmtQ kb.zoom_start ++ ")*on/" ++ toString (total_frames r) ++ "," ++
    fmtQ kb.zoom_end ++ ")" ++ qS) ++
  ":x=" ++ (if kb.x_drift_px ≠ 0 then
      qS ++ "(iw-ow)/2+" ++ toString kb.x_drift_px ++ "*on/" ++
        toString (total_frames r) ++ qS
    else qS ++ "(iw-ow)/2" ++ qS) ++
  ":y=" ++ (if kb.y_drift_px ≠ 0 then
      qS ++ "(ih-oh)/2+" ++ toString kb.y_drift_px ++ "*on/" ++
        toString (total_frames r) ++ qS
    else qS ++ "(ih-oh)/2" ++ qS) ++
  ":d=" ++ toString (total_frames r) ++ ":s=1080x1920:fps=" ++ toString r.fps

/-- Spec side (§4.4): fade-in at t=0 and fade-out at
t = duration − fade_sec, each of length fade_sec. -/
def specFadePair (r : Renderer) : String :=
  "fade=t=in:st=0:d=" ++ fmtQ r.fade_sec ++ ",fade=t=out:st=" ++
  fmtQ ((r.duration_sec : ℚ) - r.fade_sec) ++ ":d=" ++ fmtQ r.fade_sec

/-- Spec side (§4.4): the tier-independent audio chain — trim to
duration, reset timestamps to zero, fade-in at t=0, fade-out at
t = duration − fade_sec. -/
def specAudioChain (r : Renderer) : String :=
  "atrim=0:" ++ toString r.duration_sec ++ ",asetpts=PTS-STARTPTS," ++
  "afade=t=in:st=0:d=" ++ fmtQ r.fade_sec ++ ",afade=t=out:st=" ++
  fmtQ ((r.duration_sec : ℚ) - r.fade_sec) ++ ":d=" ++ fmtQ r.fade_sec

/-- Spec side (§4.3): scale-to-cover plus center-crop to the fixed
canvas, with no animation. -/
def specCoverCrop : String :=
  "scale=1080:1920:force_original_aspect_ratio=increase,crop=1080:1920"

/-- Spec side (§6, process boundary): the flat argument vector built
from the binary path, overwrite flag, looped-image input, audio input,
duration cap, the two filter-chain strings, the fixed encoding
parameters and the output path. -/
def specCommand (r : Renderer) (bg mus out vf af : String) : List String :=
  [r.ffmpeg_path, "-y", "-loop", "1", "-i", bg, "-i", mus,
   "-t", toString r.duration_sec, "-vf", vf, "-af", af,
   "-c:v", "libx264", "-preset", "medium", "-crf", "22",
   "-c:a", "aac", "-b:a", "192k", "-pix_fmt", "yuv420p",
   "-r", toString r.fps, "-shortest", "-movflags", "+faststart", out]

/-! ## Theorems -/

/-- C2: for every configuration with `zoom_end ≥ zoom_start ≥ 1.0` and
positive `total_frames = duration_sec * fps`, the emitted zoom function
`zoom(frame) = min(zoom_start + (zoom_end − zoom_start) · frame / total_frames, zoom_end)`
is non-decreasing on `[0, total_frames]`, with `zoom(0) = zoom_start`
and `zoom(total_frames) = zoom_end` exactly (clamped); in particular a
30 s render at 30 fps has `total_frames = 900`. -/
theorem zoom_monotone_clamped (zs ze tf f1 f2 : ℚ)
    (hz1 : 1 ≤ zs) (hz2 : zs ≤ ze) (htf : 0 < tf)
    (h0 : 0 ≤ f1) (h12 : f1 ≤ f2) (h2 : f2 ≤ tf) :
    zoom zs ze tf f1 ≤ zoom zs ze tf f2 ∧
    zoom zs ze tf 0 = zs ∧
    zoom zs ze tf tf = ze ∧
    total_frames { duration_sec := 30, fps := 30 } = 900 := by
  refine ⟨?_, ?_, ?_, rfl⟩
  · apply min_le_min _ le_rfl
    have hms : 0 ≤ ze - zs := by linarith
    have : (ze - zs) * f1 / tf ≤ (ze - zs) * f2 / tf := by gcongr
    linarith
  · simp [zoom, min_eq_left hz2]
  · have htf0 : tf ≠ 0 := ne_of_gt htf
    simp only [zoom]
    rw [mul_div_assoc, div_self htf0, mul_one]
    simp

/-- Witness for C2 at the default configuration: `zoom_start = 1`,
`zoom_end = 1.08`, 900 frames, comparing frames 0 and 900. -/
theorem zoom_monotone_clamped_witness :
    zoom 1 (27 / 25) 900 0 ≤ zoom 1 (27 / 25) 900 900 ∧
    zoom 1 (27 / 25) 900 0 = 1 ∧
    zoom 1 (27 / 25) 900 900 = 27 / 25 ∧
    total_frames { duration_sec := 30, fps := 30 } = 900 :=
  zoom_monotone_clamped 1 (27 / 25) 900 0 900 (by norm_num) (by norm_num)
    (by norm_num) (by norm_num) (by norm_num) (by norm_num)

/-- C8 counterexample: at `zoom_end = 1.0` the code computes a working
width of 1100 (`int(1080 * 1.02 / 2) * 2`), while the nearest even
integer to `1080 * max(zoom_end, 1) + 0.02 * 1080 = 1101.6` is 1102:
the code rounds down to even, not to nearest even. -/
theorem working_dim_not_nearest_even :
    scale_w 1 = 1100 ∧
    nearestEven ((1080 : ℚ) * max 1 1 + 1080 / 50) = 1102 ∧
    scale_w 1 ≠ nearestEven ((1080 : ℚ) * max 1 1 + 1080 / 50) := by
  have h1 : scale_w 1 = 1100 := by
    norm_num [scale_w, pad_factor, pyTrunc]
  have h2 : nearestEven ((1080 : ℚ) * max 1 1 + 1080 / 50) = 1102 := by
    norm_num [nearestEven, round_eq]
  exact ⟨h1, h2, by rw [h1, h2]; decide⟩

/-- C8 amended: for every `zoom_end`, the working dimensions of the
modern strategy's pre-scale step equal
`canvas_dim * max(zoom_end, 1.0) + 0.02 * canvas_dim`, rounded DOWN to
an even integer, for the 1080 width and the 1920 height. -/
theorem working_dim_round_down_even (z : ℚ) :
    scale_w z = roundDownEven ((1080 : ℚ) * max z 1 + 1080 / 50) ∧
    scale_h z = roundDownEven ((1920 : ℚ) * max z 1 + 1920 / 50) := by
  have hm : (1 : ℚ) ≤ max z 1 := le_max_right _ _
  constructor
  · have hpos : (0 : ℚ) ≤ (1080 : ℚ) * pad_factor z / 2 := by
      unfold pad_factor; nlinarith
    unfold scale_w pyTrunc roundDownEven
    rw [if_neg (not_lt.mpr hpos), mul_comm]
    congr 1
    unfold pad_factor
    ring_nf
  · have hpos : (0 : ℚ) ≤ (1920 : ℚ) * pad_factor z / 2 := by
      unfold pad_factor; nlinarith
    unfold scale_h pyTrunc roundDownEven
    rw [if_neg (not_lt.mpr hpos), mul_comm]
    congr 1
    unfold pad_factor
    ring_nf

lemma strTail_length (s : String) (n : Nat) :
    (strTail s n).length = min n s.length := by
  show (s.data.drop (s.data.length - n)).length = min n s.data.length
  rw [List.length_drop]
  omega

lemma strTail_suffix (s : String) (n : Nat) : ∃ pre : String, s = pre ++ strTail s n := by
  refine ⟨String.mk (s.data.take (s.data.length - n)), ?_⟩
  calc s = String.mk s.data := rfl
  _ = String.mk (s.data.take (s.data.length - n) ++ s.data.drop (s.data.length - n)) := by
      rw [List.take_append_drop]
  _ = String.mk (s.data.take (s.data.length - n)) ++ strTail s n := rfl

/-- C7: whenever the external process exits non-zero, the media renderer
returns a failed result whose error message is exactly the 600-character
tail of the captured stderr (its length is `min 600 |stderr|` and it is
a suffix of the stream); the legacy core renderer does the same with a
500-character tail whenever stderr is non-empty. -/
theorem stderr_tail_spec (r : Renderer) (c : Int) (stderr : String) (fs : FileSys)
    (p : String) (hc : c ≠ 0) :
    (∃ res msg, run_ffmpeg r (.exited c stderr) fs p = .ok res ∧
      res.success = false ∧ res.error_message = some msg ∧
      msg.length = min 600 stderr.length ∧ ∃ pre : String, stderr = pre ++ msg) ∧
    (stderr ≠ "" → ∃ res msg, core_ffmpeg_encode r (.exited c stderr) fs p = .ok res ∧
      res.success = false ∧ res.error_message = some msg ∧
      msg.length = min 500 stderr.length ∧ ∃ pre : String, stderr = pre ++ msg) := by
  constructor
  · refine ⟨{ output_path := p, success := false,
               error_message := some (strTail stderr 600) },
      strTail stderr 600, ?_, rfl, rfl,
      strTail_length stderr 600, strTail_suffix stderr 600⟩
    simp only [run_ffmpeg]
    rw [if_pos hc]
  · intro hne
    refine ⟨{ output_path := p, duration_sec := r.duration_sec, width := 1080,
               height := 1920, success := false,
               error_message := some (strTail stderr 500) },
      strTail stderr 500, ?_, rfl, rfl,
      strTail_length stderr 500, strTail_suffix stderr 500⟩
    simp only [core_ffmpeg_encode]
    rw [if_pos hc, if_neg hne]

/-- Witness for C7: a simulated exit status 1 with a 2000-character
stderr stream yields a failed result whose message has length
`min 600 2000 = 600` and is a tail of the stream. -/
theorem stderr_tail_spec_witness :
    (∃ res msg, run_ffmpeg {} (.exited 1 (String.mk (List.replicate 2000 'e')))
        { outputExists := false, outputSize := 0 } "o" = .ok res ∧
      res.success = false ∧ res.error_message = some msg ∧
      msg.length = min 600 (String.mk (List.replicate 2000 'e')).length ∧
      ∃ pre : String, String.mk (List.replicate 2000 'e') = pre ++ msg) ∧
    (String.mk (List.replicate 2000 'e') ≠ "" →
      ∃ res msg, core_ffmpeg_encode {} (.exited 1 (String.mk (List.replicate 2000 'e')))
          { outputExists := false, outputSize := 0 } "o" = .ok res ∧
        res.success = false ∧ res.error_message = some msg ∧
        msg.length = min 500 (String.mk (List.replicate 2000 'e')).length ∧
        ∃ pre : String, String.mk (List.replicate 2000 'e') = pre ++ msg) :=
  stderr_tail_spec {} 1 (String.mk (List.replicate 2000 'e'))
    { outputExists := false, outputSize := 0 } "o" (by decide)

/-- C9: every failed result of the media renderer carries the dataclass
defaults (`duration_sec = 30`, `width = 1080`, `height = 1920`,
`file_size_mb = 0`) regardless of the renderer configuration, while a
successful result carries the configured duration. -/
theorem render_result_defaults_on_failure (r : Renderer) (o : ProcOutcome)
    (fs : FileSys) (p : String) :
    (∀ res, run_ffmpeg r o fs p = .ok res → res.success = false →
      res.duration_sec = 30 ∧ res.width = 1080 ∧ res.height = 1920 ∧
        res.file_size_mb = 0) ∧
    (∀ res, run_ffmpeg r o fs p = .ok res → res.success = true →
      res.duration_sec = r.duration_sec) := by
  cases o with
  | timeout =>
    constructor
    · intro res h _
      simp only [run_ffmpeg, Except.ok.injEq] at h
      subst h; exact ⟨rfl, rfl, rfl, rfl⟩
    · intro res h hs
      simp only [run_ffmpeg, Except.ok.injEq] at h
      subst h; simp at hs
  | subprocessError m =>
    constructor
    · intro res h _
      simp only [run_ffmpeg, Except.ok.injEq] at h
      subst h; exact ⟨rfl, rfl, rfl, rfl⟩
    · intro res h hs
      simp only [run_ffmpeg, Except.ok.injEq] at h
      subst h; simp at hs
  | exited c e =>
    by_cases hc : c ≠ 0
    · constructor
      · intro res h _
        simp only [run_ffmpeg, if_pos hc, Except.ok.injEq] at h
        subst h; exact ⟨rfl, rfl, rfl, rfl⟩
      · intro res h hs
        simp only [run_ffmpeg, if_pos hc, Except.ok.injEq] at h
        subst h; simp at hs
    · by_cases hex : fs.outputExists
      · constructor
        · intro res h hs
          simp only [run_ffmpeg, if_neg hc, if_pos hex, Except.ok.injEq] at h
          subst h; simp at hs
        · intro res h _
          simp only [run_ffmpeg, if_neg hc, if_pos hex, Except.ok.injEq] at h
          subst h; rfl
      · constructor
        · intro res h _
          simp only [run_ffmpeg, if_neg hc, if_neg hex] at h
          exact Except.noConfusion h
        · intro res h _
          simp only [run_ffmpeg, if_neg hc, if_neg hex] at h
          exact Except.noConfusion h

/-- Witness for C9: a renderer configured with `duration_sec = 10` still
produces a timed-out result whose `duration_sec` is the default 30. -/
theorem render_result_defaults_on_failure_witness :
    ({ output_path := "o", success := false,
       error_message := some "FFmpeg timed out after 150s" } : RenderResult).duration_sec = 30 ∧
    ({ output_path := "o", success := false,
       error_message := some "FFmpeg timed out after 150s" } : RenderResult).file_size_mb = 0 :=
  by
  have h := (render_result_defaults_on_failure { duration_sec := 10 } .timeout
    { outputExists := false, outputSize := 0 } "o").1
    { output_path := "o", success := false,
      error_message := some "FFmpeg timed out after 150s" } (by rfl) rfl
  exact ⟨h.1, h.2.2.2⟩

/-- C1 counterexample: when the external process exits with status zero
but the output file is missing, the size query `output_path.stat()`
raises an uncaught error instead of producing a `RenderResult`, so the
outcome is not reported through the returned result and an exception
other than `EnvironmentMissing` escapes from `render()`. -/
theorem run_ffmpeg_zero_exit_missing_output_raises :
    run_ffmpeg {} (.exited 0 "") { outputExists := false, outputSize := 0 } "out.mp4" =
      .error "FileNotFoundError: stat of missing output out.mp4" := rfl

/-- C1 amended: every timeout, subprocess error and non-zero exit is
reported as a failed `RenderResult` (never thrown); a returned result is
successful exactly when the process exited zero and the output file
exists, and then reports the file's size; the pre-flight compositing
failure of the legacy renderer is likewise returned, not thrown; the
binary-missing condition is the raising failure at construction. The
one exception forced by the counterexample: a zero exit with a missing
output file raises an uncaught file-system error during the size query. -/
theorem run_ffmpeg_outcome_classification (r : Renderer) (o : ProcOutcome)
    (fs : FileSys) (p : String) :
    (o = .timeout ∨ (∃ m, o = .subprocessError m) ∨ (∃ c e, o = .exited c e ∧ c ≠ 0) →
      ∃ res, run_ffmpeg r o fs p = .ok res ∧ res.success = false) ∧
    (∀ res, run_ffmpeg r o fs p = .ok res →
      (res.success = true ↔ (∃ e, o = .exited 0 e) ∧ fs.outputExists = true)) ∧
    (∀ e, o = .exited 0 e → fs.outputExists = true →
      run_ffmpeg r o fs p = .ok { output_path := p, success := true,
                                  duration_sec := r.duration_sec, width := 1080,
                                  height := 1920,
                                  file_size_mb := round2 ((fs.outputSize : ℚ) / 1048576) }) ∧
    (∀ e, o = .exited 0 e → fs.outputExists = false →
      ∃ msg, run_ffmpeg r o fs p = .error msg) ∧
    (∀ m po cfs, core_render r (.raises m) po cfs p =
      .ok { output_path := p, duration_sec := r.duration_sec, width := 1080,
            height := 1920, success := false,
            error_message := some ("TextOverlay compositing failed: " ++ m) }
        ) ∧
    (verify_ffmpeg none r.ffmpeg_path = .error ("FFmpeg not found at " ++ r.ffmpeg_path) ∧
      ∀ resolved, verify_ffmpeg (some resolved) r.ffmpeg_path = .ok ()) := by
  refine ⟨?_, ?_, ?_, ?_, fun m po cfs => rfl, rfl, fun resolved => rfl⟩
  · rintro (rfl | ⟨m, rfl⟩ | ⟨c, e, rfl, hc⟩)
    · refine ⟨_, rfl, ?_⟩
      rfl
    · refine ⟨_, rfl, ?_⟩
      rfl
    · refine ⟨{ output_path := p, success := false,
                error_message := some (strTail e 600) }, ?_, rfl⟩
      simp only [run_ffmpeg]
      rw [if_pos hc]
  · intro res h
    cases o with
    | timeout =>
      simp only [run_ffmpeg, Except.ok.injEq] at h
      subst h
      simp
    | subprocessError m =>
      simp only [run_ffmpeg, Except.ok.injEq] at h
      subst h
      simp
    | exited c e =>
      by_cases hc : c ≠ 0
      · simp only [run_ffmpeg, if_pos hc, Except.ok.injEq] at h
        subst h
        simp only [Bool.false_eq_true, false_iff, not_and]
        rintro ⟨e2, he⟩
        cases he
        exact absurd rfl hc
      · push_neg at hc
        subst hc
        by_cases hex : fs.outputExists
        · simp only [run_ffmpeg, if_neg (by simp : ¬ (0 : Int) ≠ 0), if_pos hex,
            Except.ok.injEq] at h
          subst h
          simp [hex]
        · simp only [run_ffmpeg, if_neg (by simp : ¬ (0 : Int) ≠ 0), if_neg hex] at h
          exact Except.noConfusion h
  · rintro e rfl hex
    simp only [run_ffmpeg, if_neg (by simp : ¬ (0 : Int) ≠ 0), if_pos hex]
  · rintro e rfl hex
    refine ⟨"FileNotFoundError: stat of missing output " ++ p, ?_⟩
    simp only [run_ffmpeg, if_neg (by simp : ¬ (0 : Int) ≠ 0)]
    rw [if_neg (by simp [hex])]

/-- Witness for C1 (amended): a concrete timeout is reported as a failed
result, and a concrete zero exit with an existing 2 MiB output file is
the successful case reporting the size. -/
theorem run_ffmpeg_outcome_classification_witness :
    (∃ res, run_ffmpeg {} .timeout { outputExists := false, outputSize := 0 } "o" =
      .ok res ∧ res.success = false) ∧
    run_ffmpeg {} (.exited 0 "") { outputExists := true, outputSize := 2097152 } "o" =
      .ok { output_path := "o", success := true, duration_sec := (30 : Int),
            width := 1080, height := 1920,
            file_size_mb := round2 ((2097152 : ℚ) / 1048576) } :=
  ⟨(run_ffmpeg_outcome_classification {} .timeout
      { outputExists := false, outputSize := 0 } "o").1 (Or.inl rfl),
   (run_ffmpeg_outcome_classification {} (.exited 0 "")
      { outputExists := true, outputSize := 2097152 } "o").2.2.1 "" rfl rfl⟩

lemma takeWhile_all_append (p : Char → Bool) (xs : List Char) (y : Char) (zs : List Char)
    (hall : ∀ c ∈ xs, p c = true) (hy : p y = false) :
    (xs ++ y :: zs).takeWhile p = xs := by
  induction xs with
  | nil => simp [List.takeWhile, hy]
  | cons a t ih =>
    have ha : p a = true := hall a (by simp)
    simp only [List.cons_append, List.takeWhile_cons, ha, if_true]
    rw [ih fun c hc => hall c (by simp [hc])]

lemma isDigit_not_pyWS (c : Char) (h : c.isDigit = true) : isPyWS c = false := by
  simp only [Char.isDigit, Bool.and_eq_true, decide_eq_true_eq, ge_iff_le] at h
  obtain ⟨h1, h2⟩ := h
  have hv1 : 48 ≤ c.val.toNat := by exact_mod_cast h1
  have hv2 : c.val.toNat ≤ 57 := by exact_mod_cast h2
  unfold isPyWS
  simp only [Bool.or_eq_false_iff, beq_eq_false_iff_ne, ne_eq]
  and_intros <;> (rintro rfl; revert hv1 hv2; decide)

lemma isDigit_not_lineBreak (c : Char) (h : c.isDigit = true) : isLineBreak c = false := by
  simp only [Char.isDigit, Bool.and_eq_true, decide_eq_true_eq, ge_iff_le] at h
  obtain ⟨h1, h2⟩ := h
  have hv1 : 48 ≤ c.val.toNat := by exact_mod_cast h1
  have hv2 : c.val.toNat ≤ 57 := by exact_mod_cast h2
  unfold isLineBreak
  simp only [Bool.or_eq_false_iff, beq_eq_false_iff_ne, ne_eq]
  and_intros <;> (rintro rfl; revert hv1 hv2; decide)

lemma pySplitlinesGo_no_break (l : List Char) (hl : ∀ c ∈ l, isLineBreak c = false) :
    ∀ acc, pySplitlinesGo l acc false =
      if acc.isEmpty ∧ l.isEmpty then [] else [acc.reverse ++ l] := by
  induction l with
  | nil =>
    intro acc
    by_cases h : acc.isEmpty <;> simp [pySplitlinesGo, h]
  | cons c rest ih =>
    intro acc
    have hc : isLineBreak c = false := hl c (by simp)
    have hcr : c ≠ '\r' := by rintro rfl; revert hc; decide
    have hstep : pySplitlinesGo (c :: rest) acc false =
        pySplitlinesGo rest (c :: acc) false := by
      rw [pySplitlinesGo]
      rw [if_neg (by simp), if_neg hcr, if_neg (by simp [hc])]
    rw [hstep, ih (fun d hd => hl d (by simp [hd])) (c :: acc)]
    simp

lemma pySplitlines_single (l : List Char) (hne : l ≠ [])
    (hl : ∀ c ∈ l, isLineBreak c = false) : pySplitlines l = [l] := by
  unfold pySplitlines
  rw [pySplitlinesGo_no_break l hl []]
  simp [hne]

lemma matchVersionHere_ne_v (c : Char) (l : List Char) (h : c ≠ 'v') :
    matchVersionHere (c :: l) = none := by
  unfold matchVersionHere versionLit
  simp [dropLit, h]

lemma matchVersionHere_at_digits (d : Char) (ds rest : List Char)
    (hd : d.isDigit = true) (hds : ∀ c ∈ ds, c.isDigit = true) :
    matchVersionHere ((versionLit ++ [' ']) ++ ((d :: ds) ++ '.' :: rest)) =
      some (some (digitsToNat (d :: ds))) := by
  have hstep : (versionLit ++ [' ']) ++ ((d :: ds) ++ '.' :: rest) =
      'v' :: 'e' :: 'r' :: 's' :: 'i' :: 'o' :: 'n' :: ' ' ::
        ((d :: ds) ++ '.' :: rest) := by
    simp [versionLit]
  have hdN : d ≠ 'N' := by rintro rfl; revert hd; decide
  have hdws : isPyWS d = false := isDigit_not_pyWS d hd
  have htake : ((d :: ds) ++ '.' :: rest).takeWhile Char.isDigit = d :: ds := by
    apply takeWhile_all_append
    · intro c hc
      rcases List.mem_cons.mp hc with rfl | hmem
      · exact hd
      · exact hds c hmem
    · decide
  have hdrop : ((d :: ds) ++ '.' :: rest).dropWhile isPyWS =
      (d :: ds) ++ '.' :: rest := by
    rw [List.cons_append, List.dropWhile_cons, hdws]
    simp
  rw [hstep]
  unfold matchVersionHere
  have hlit : dropLit versionLit
      ('v' :: 'e' :: 'r' :: 's' :: 'i' :: 'o' :: 'n' :: ' ' ::
        ((d :: ds) ++ '.' :: rest)) =
      some (' ' :: ((d :: ds) ++ '.' :: rest)) := by
    unfold versionLit dropLit
    simp [dropLit]
  rw [hlit]
  show (if isPyWS ' ' = true then
      matchVersionTail (((d :: ds) ++ '.' :: rest).dropWhile isPyWS) else none) = _
  rw [if_pos (by decide), hdrop]
  rcases ds with _ | ⟨d2, ds2⟩
  · show matchVersionTail (d :: '.' :: rest) = some (some (digitsToNat [d]))
    unfold matchVersionTail
    dsimp only
    rw [if_neg (fun hco => hdN hco.1)]
    simp only [List.cons_append, List.nil_append] at htake
    rw [htake]
    simp
  · show matchVersionTail (d :: d2 :: (ds2 ++ '.' :: rest)) =
      some (some (digitsToNat (d :: d2 :: ds2)))
    unfold matchVersionTail
    dsimp only
    rw [if_neg (fun hco => hdN hco.1)]
    have h2 : List.takeWhile Char.isDigit (d :: d2 :: (ds2 ++ '.' :: rest)) =
        d :: d2 :: ds2 := by
      have := htake
      simpa using this
    rw [h2]
    simp

lemma searchVersion_skip (pre tail : List Char) (hp : ∀ c ∈ pre, c ≠ 'v') :
    searchVersion (pre ++ tail) = searchVersion tail := by
  induction pre with
  | nil => rfl
  | cons c t ih =>
    have hc : c ≠ 'v' := hp c (by simp)
    show searchVersion (c :: (t ++ tail)) = searchVersion tail
    rw [searchVersion, matchVersionHere_ne_v c (t ++ tail) hc]
    exact ih fun d hd => hp d (by simp [hd])

/-- C5: the capability probe is total, non-negative, and classifies as
specified — an invocation failure yields 0, empty output yields 0, the
unversioned development-tag shape (`N-...`) yields 0, and a first line
containing the token `version` followed by a dotted numeric version
yields that numeric major (e.g. `6.1.1` gives tier 6). -/
theorem detect_ffmpeg_major_spec :
    detect_ffmpeg_major .failure = 0 ∧
    detect_ffmpeg_major (.output "") = 0 ∧
    detect_ffmpeg_major
      (.output "ffmpeg version N-55702-gabc1234 Copyright (c) 2013") = 0 ∧
    (∀ o, 0 ≤ (detect_ffmpeg_major o : Int)) ∧
    (∀ (pre : List Char) (d : Char) (ds rest : List Char),
      (∀ c ∈ pre, c ≠ 'v' ∧ isLineBreak c = false) →
      d.isDigit = true → (∀ c ∈ ds, c.isDigit = true) →
      (∀ c ∈ rest, isLineBreak c = false) →
      detect_ffmpeg_major
        (.output (String.mk (pre ++ (versionLit ++ [' ']) ++ ((d :: ds) ++ '.' :: rest)))) =
        digitsToNat (d :: ds)) := by
  refine ⟨rfl, rfl, by decide, fun o => Int.ofNat_nonneg _, ?_⟩
  intro pre d ds rest hpre hd hds hrest
  have hnb : ∀ c ∈ pre ++ (versionLit ++ [' ']) ++ ((d :: ds) ++ '.' :: rest),
      isLineBreak c = false := by
    intro c hc
    rcases List.mem_append.mp hc with h | h
    · rcases List.mem_append.mp h with h2 | h2
      · exact (hpre c h2).2
      · rcases List.mem_append.mp h2 with h3 | h3
        · exact (by decide : ∀ x ∈ versionLit, isLineBreak x = false) c h3
        · rcases List.mem_singleton.mp h3 with rfl
          decide
    · rcases List.mem_append.mp h with h2 | h2
      · rcases List.mem_cons.mp h2 with rfl | h4
        · exact isDigit_not_lineBreak c hd
        · exact isDigit_not_lineBreak c (hds c h4)
      · rcases List.mem_cons.mp h2 with rfl | h4
        · decide
        · exact hrest c h4
  show (match pySplitlines (String.mk _).data with
    | [] => 0
    | firstLine :: _ =>
      match searchVersion firstLine with
      | some (some major) => major
      | some none => 0
      | none => 0) = digitsToNat (d :: ds)
  have hdata : (String.mk (pre ++ (versionLit ++ [' ']) ++ ((d :: ds) ++ '.' :: rest))).data =
      pre ++ (versionLit ++ [' ']) ++ ((d :: ds) ++ '.' :: rest) := rfl
  rw [hdata, pySplitlines_single _ (by simp [versionLit]) hnb]
  rw [List.append_assoc pre]
  dsimp only
  rw [searchVersion_skip pre _ (fun c hc => (hpre c hc).1)]
  have hver : (versionLit ++ [' ']) ++ ((d :: ds) ++ '.' :: rest) =
      'v' :: (['e', 'r', 's', 'i', 'o', 'n', ' '] ++ ((d :: ds) ++ '.' :: rest)) := by
    simp [versionLit]
  rw [hver, searchVersion, ← hver, matchVersionHere_at_digits d ds rest hd hds]

/-- Witness for C5: the line `tool version 6.1.1 foo` yields tier 6. -/
theorem detect_ffmpeg_major_spec_witness :
    detect_ffmpeg_major
      (.output (String.mk ("tool ".data ++ (versionLit ++ [' ']) ++
        (('6' :: []) ++ '.' :: "1.1 foo".data)))) = digitsToNat ('6' :: []) :=
  detect_ffmpeg_major_spec.2.2.2.2 "tool ".data '6' [] "1.1 foo".data
    (by decide) (by decide) (by intro c hc; cases hc) (by decide)

lemma replaceChar_cons (x : Char) (t : List Char) (c : Char) (r : List Char) :
    replaceChar (x :: t) c r = (if x = c then r else [x]) ++ replaceChar t c r := by
  unfold replaceChar
  simp

lemma esc_chain (l : List Char) :
    replaceChar (replaceChar (replaceChar l bsl [bsl, bsl]) qc [bsl, qc]) ':' [bsl, ':'] =
      l.flatMap escBlock := by
  induction l with
  | nil => rfl
  | cons x t ih =>
    rw [replaceChar_cons]
    have happ : ∀ (a b : List Char) (c : Char) (r : List Char),
        replaceChar (a ++ b) c r = replaceChar a c r ++ replaceChar b c r := by
      intro a b c r
      unfold replaceChar
      simp
    rw [happ, happ, List.flatMap_cons, ← ih]
    congr 1
    by_cases h1 : x = bsl
    · subst h1
      decide
    · by_cases h2 : x = qc
      · subst h2
        decide
      · by_cases h3 : x = ':'
        · subst h3
          decide
        · simp [replaceChar, escBlock, h1, h2, h3]

lemma escape_drawtext_data (s : String) :
    (escape_drawtext s).data = s.data.flatMap escBlock := by
  show replaceChar (replaceChar (replaceChar s.data bsl [bsl, bsl]) qc [bsl, qc])
      ':' [bsl, ':'] = s.data.flatMap escBlock
  exact esc_chain s.data

lemma escSafe_block_append (c : Char) (rest : List Char) :
    escSafe (escBlock c ++ rest) = escSafe rest := by
  by_cases h1 : c = bsl
  · subst h1
    simp [escBlock, escSafe]
  · by_cases h2 : c = qc
    · subst h2
      simp [escBlock, escSafe, h1]
    · by_cases h3 : c = ':'
      · subst h3
        simp [escBlock, escSafe, h1, h2]
      · rcases rest with _ | ⟨d, r⟩ <;> simp [escBlock, escSafe, h1, h2, h3]

lemma escSafe_flatMap (l : List Char) : escSafe (l.flatMap escBlock) = true := by
  induction l with
  | nil => rfl
  | cons x t ih =>
    rw [List.flatMap_cons, escSafe_block_append, ih]

lemma count_bsl_flatMap (l : List Char) :
    (l.flatMap escBlock).count bsl =
      2 * l.count bsl + l.count qc + l.count ':' := by
  induction l with
  | nil => rfl
  | cons x t ih =>
    rw [List.flatMap_cons, List.count_append, ih]
    simp only [List.count_cons, beq_iff_eq]
    by_cases h1 : x = bsl
    · subst h1
      rw [show (escBlock bsl).count bsl = 2 from by decide]
      simp only [if_pos rfl, if_true, if_neg (by decide : ¬ (bsl = qc)),
        if_neg (by decide : ¬ (bsl = ':'))]
      omega
    · by_cases h2 : x = qc
      · subst h2
        rw [show (escBlock qc).count bsl = 1 from by decide]
        simp only [if_pos rfl, if_true, if_neg (by decide : ¬ (qc = bsl)),
          if_neg (by decide : ¬ (qc = ':'))]
        omega
      · by_cases h3 : x = ':'
        · subst h3
          rw [show (escBlock ':').count bsl = 1 from by decide]
          simp only [if_pos rfl, if_true, if_neg (by decide : ¬ (':' = bsl)),
            if_neg (by decide : ¬ (':' = qc))]
          omega
        · have hc : (escBlock x).count bsl = 0 := by
            unfold escBlock
            rw [if_neg h1, if_neg h2, if_neg h3]
            simp [List.count_cons, h1]
          rw [hc, if_neg h1, if_neg h2, if_neg h3]
          omega

lemma preceded_flatMap (l : List Char) :
    ∀ i, i < (l.flatMap escBlock).length →
      ((l.flatMap escBlock).getD i ' ' = qc ∨ (l.flatMap escBlock).getD i ' ' = ':') →
      0 < i ∧ (l.flatMap escBlock).getD (i - 1) ' ' = bsl := by
  induction l with
  | nil => intro i hi; simp at hi
  | cons x t ih =>
    intro i hi hsp
    rw [List.flatMap_cons] at hi hsp ⊢
    by_cases hx : x = bsl ∨ x = qc ∨ x = ':'
    · have hblock : escBlock x = [bsl, x] ∨ escBlock x = [bsl, bsl] := by
        rcases hx with rfl | rfl | rfl
        · right; rfl
        · left; rfl
        · left; rfl
      have hlen : (escBlock x).length = 2 := by
        rcases hblock with h | h <;> rw [h] <;> rfl
      have hhead : (escBlock x).getD 0 ' ' = bsl := by
        rcases hblock with h | h <;> rw [h] <;> rfl
      match i with
      | 0 =>
        exfalso
        rcases hsp with h | h <;>
          · rw [List.getD_append _ _ _ _ (by omega)] at h
            rw [hhead] at h
            revert h
            decide
      | 1 =>
        refine ⟨by omega, ?_⟩
        rw [List.getD_append _ _ _ _ (by omega)]
        exact hhead
      | (j + 2) =>
        have hj : j + 2 - (escBlock x).length = j := by omega
        rw [List.getD_append_right _ _ _ _ (by omega), hj] at hsp
        rw [List.length_append, hlen] at hi
        obtain ⟨hpos, hprev⟩ := ih j (by omega) hsp
        refine ⟨by omega, ?_⟩
        rw [List.getD_append_right _ _ _ _ (by omega), hlen]
        have : j + 2 - 1 - 2 = j - 1 := by omega
        rw [this]
        exact hprev
    · push_neg at hx
      have hblock : escBlock x = [x] := by
        simp [escBlock, hx.1, hx.2.1, hx.2.2]
      rw [hblock] at hi hsp ⊢
      match i with
      | 0 =>
        exfalso
        rcases hsp with h | h <;>
          · rw [List.getD_append _ _ _ _ (by simp)] at h
            simp at h
            first
            | exact hx.2.1 h
            | exact hx.2.2 h
      | (j + 1) =>
        have h1 : ([x] ++ t.flatMap escBlock).getD (j + 1) ' ' =
            (t.flatMap escBlock).getD j ' ' := by
          rw [List.getD_append_right _ _ _ _ (by simp)]
          simp
        rw [h1] at hsp
        rw [List.length_append] at hi
        obtain ⟨hpos, hprev⟩ := ih j (by simp at hi ⊢; omega) hsp
        refine ⟨by omega, ?_⟩
        rw [List.getD_append_right _ _ _ _ (by simp; omega)]
        have : j + 1 - 1 - 1 = j - 1 := by omega
        simp only [List.length_cons, List.length_nil]
        rw [this]
        exact hprev

/-- C4: the drawtext escape first doubles each backslash, then prefixes
each single quote and each colon with a backslash (the per-character
image is `escBlock`); consequently each original backslash contributes
two output backslashes (the output backslash count is
`2·#backslash + #quote + #colon`), every quote or colon in the output is
immediately preceded by a backslash, and scanning the output with the
drawtext escape semantics never meets an unescaped quote or colon nor a
dangling final backslash — substituting the escaped text into the
`drawtext=text='…'` directive never terminates it early. -/
theorem escape_drawtext_spec (s : String) :
    (escape_drawtext s).data = s.data.flatMap escBlock ∧
    escSafe (escape_drawtext s).data = true ∧
    (escape_drawtext s).data.count bsl =
      2 * s.data.count bsl + s.data.count qc + s.data.count ':' ∧
    (∀ i, i < (escape_drawtext s).data.length →
      ((escape_drawtext s).data.getD i ' ' = qc ∨
        (escape_drawtext s).data.getD i ' ' = ':') →
      0 < i ∧ (escape_drawtext s).data.getD (i - 1) ' ' = bsl) := by
  refine ⟨escape_drawtext_data s, ?_, ?_, ?_⟩
  · rw [escape_drawtext_data s]
    exact escSafe_flatMap s.data
  · rw [escape_drawtext_data s]
    exact count_bsl_flatMap s.data
  · rw [escape_drawtext_data s]
    exact preceded_flatMap s.data

/-- Witness for C4 at the concrete input `a:b`. -/
theorem escape_drawtext_spec_witness :
    (escape_drawtext "a:b").data = "a:b".data.flatMap escBlock ∧
    escSafe (escape_drawtext "a:b").data = true ∧
    (escape_drawtext "a:b").data.count bsl =
      2 * "a:b".data.count bsl + "a:b".data.count qc + "a:b".data.count ':' ∧
    (∀ i, i < (escape_drawtext "a:b").data.length →
      ((escape_drawtext "a:b").data.getD i ' ' = qc ∨
        (escape_drawtext "a:b").data.getD i ' ' = ':') →
      0 < i ∧ (escape_drawtext "a:b").data.getD (i - 1) ' ' = bsl) :=
  escape_drawtext_spec "a:b"

lemma string_append_assoc (a b c : String) : a ++ b ++ c = a ++ (b ++ c) := by
  show String.mk ((a.data ++ b.data) ++ c.data) = String.mk (a.data ++ (b.data ++ c.data))
  rw [List.append_assoc]

lemma wrapParagraphs_ok (w : Nat) (hw : w ≠ 0) :
    ∀ ps, ∃ ls, wrapParagraphs w ps = .ok ls := by
  intro ps
  induction ps with
  | nil => exact ⟨[], rfl⟩
  | cons p rest ih =>
    obtain ⟨ls, hls⟩ := ih
    unfold wrapParagraphs
    by_cases hp : (pyStrip p).isEmpty
    · rw [if_pos hp]
      exact ⟨ls, hls⟩
    · rw [if_neg hp]
      have hwk : pyWrap w (pyStrip p) =
          .ok (wrapChunks w (splitChunks (pyMunge (pyStrip p)))) := by
        unfold pyWrap
        rw [if_neg hw]
      rw [hwk, hls]
      exact ⟨_, rfl⟩

lemma wrap_text_ok (t : String) (mc : Nat) (hmc : 1 ≤ mc) :
    ∃ lines, wrap_text t mc = .ok lines ∧ lines ≠ [] := by
  obtain ⟨ls, hls⟩ := wrapParagraphs_ok mc (by omega) (pySplitlines t.data)
  unfold wrap_text
  rw [hls]
  dsimp only
  by_cases h : ls.isEmpty
  · rw [if_pos h]
    exact ⟨_, rfl, by simp⟩
  · rw [if_neg h]
    refine ⟨_, rfl, ?_⟩
    simp only [ne_eq, List.map_eq_nil_iff]
    simpa using h

lemma build_drawtext_chain_spec (cfg : TextConfig) (fsFont : String → Bool)
    (h : 1 ≤ cfg.max_chars) :
    ∃ lines, wrap_text cfg.text cfg.max_chars = .ok lines ∧ lines ≠ [] ∧
      build_drawtext_chain cfg fsFont = .ok (String.intercalate ","
        (drawtextFilters
          (match cfg.font_path with
           | some p => if fsFont p then ":fontfile=" ++ qS ++ normFontPath p ++ qS else ""
           | none => "")
          (if cfg.box then
            ":box=1:boxcolor=" ++ cfg.box_color ++ ":boxborderw=" ++
              toString cfg.box_border
           else "")
          cfg.font_size cfg.font_color
          (pyTrunc ((1920 : ℚ) * (6 / 10)) -
            Int.fdiv ((cfg.font_size + cfg.line_spacing) * (lines.length : Int)) 2)
          (cfg.font_size + cfg.line_spacing) 0 lines)) := by
  obtain ⟨lines, hw, hne⟩ := wrap_text_ok cfg.text cfg.max_chars h
  refine ⟨lines, hw, hne, ?_⟩
  unfold build_drawtext_chain
  rw [hw]
  dsimp only
  rw [if_neg (by simpa using hne)]

/-- C6: with a cached tier at least 4 the built command uses the modern
video chain — pre-scale, then the Ken Burns zoompan animation over
every output frame, then the drawtext chain, then fade-in at t=0 and
fade-out at t=duration−fade_sec; with tier below 4 it uses
scale-to-cover plus center-crop followed by the same drawtext chain and
the same fades; in both cases the audio chain is the same
trim/reset/fade-in/fade-out string, inside the same flat argument
vector. -/
theorem build_command_strategy_spec (r : Renderer) (bg mus out : String)
    (cfg : TextConfig) (kb : KenBurnsConfig) (fsFont : String → Bool)
    (h : 1 ≤ cfg.max_chars) :
    ∃ dt, build_drawtext_chain cfg fsFont = .ok dt ∧
      (4 ≤ r.ffmpeg_major →
        build_command r bg mus out cfg kb fsFont =
          .ok (specCommand r bg mus out
            (specKBPrescale kb ++ "," ++ specZoompan r kb ++ "," ++ dt ++ "," ++
              specFadePair r) (specAudioChain r))) ∧
      (r.ffmpeg_major < 4 →
        build_command r bg mus out cfg kb fsFont =
          .ok (specCommand r bg mus out
            (specCoverCrop ++ "," ++ dt ++ "," ++ specFadePair r)
            (specAudioChain r))) := by
  obtain ⟨lines, hwrap, hne, hchain⟩ := build_drawtext_chain_spec cfg fsFont h
  refine ⟨_, hchain, ?_, ?_⟩
  · intro h4
    unfold build_command
    rw [if_pos h4]
    unfold vf_ken_burns
    rw [hchain]
    unfold specCommand specKBPrescale specZoompan specFadePair specAudioChain total_frames
    simp only [string_append_assoc]
  · intro h4
    unfold build_command
    rw [if_neg (by omega : ¬ 4 ≤ r.ffmpeg_major)]
    unfold vf_compat
    rw [hchain]
    unfold specCommand specCoverCrop specFadePair specAudioChain
    simp only [string_append_assoc]

/-- Witness for C6: a concrete modern-tier renderer and a concrete
legacy-tier renderer with the default text configuration. -/
theorem build_command_strategy_spec_witness :
    (∃ dt, build_drawtext_chain { text := "hello world" } (fun _ => false) = .ok dt ∧
      (4 ≤ ({ ffmpeg_major := 6 } : Renderer).ffmpeg_major →
        build_command { ffmpeg_major := 6 } "bg.jpg" "m.mp3" "o.mp4"
            { text := "hello world" } {} (fun _ => false) =
          .ok (specCommand { ffmpeg_major := 6 } "bg.jpg" "m.mp3" "o.mp4"
            (specKBPrescale {} ++ "," ++ specZoompan { ffmpeg_major := 6 } {} ++ "," ++
              dt ++ "," ++ specFadePair { ffmpeg_major := 6 })
            (specAudioChain { ffmpeg_major := 6 }))) ∧
      (({ ffmpeg_major := 6 } : Renderer).ffmpeg_major < 4 →
        build_command { ffmpeg_major := 6 } "bg.jpg" "m.mp3" "o.mp4"
            { text := "hello world" } {} (fun _ => false) =
          .ok (specCommand { ffmpeg_major := 6 } "bg.jpg" "m.mp3" "o.mp4"
            (specCoverCrop ++ "," ++ dt ++ "," ++ specFadePair { ffmpeg_major := 6 })
            (specAudioChain { ffmpeg_major := 6 })))) ∧
    (∃ dt, build_drawtext_chain { text := "hello world" } (fun _ => false) = .ok dt ∧
      (4 ≤ ({ ffmpeg_major := 2 } : Renderer).ffmpeg_major →
        build_command { ffmpeg_major := 2 } "bg.jpg" "m.mp3" "o.mp4"
            { text := "hello world" } {} (fun _ => false) =
          .ok (specCommand { ffmpeg_major := 2 } "bg.jpg" "m.mp3" "o.mp4"
            (specKBPrescale {} ++ "," ++ specZoompan { ffmpeg_major := 2 } {} ++ "," ++
              dt ++ "," ++ specFadePair { ffmpeg_major := 2 })
            (specAudioChain { ffmpeg_major := 2 }))) ∧
      (({ ffmpeg_major := 2 } : Renderer).ffmpeg_major < 4 →
        build_command { ffmpeg_major := 2 } "bg.jpg" "m.mp3" "o.mp4"
            { text := "hello world" } {} (fun _ => false) =
          .ok (specCommand { ffmpeg_major := 2 } "bg.jpg" "m.mp3" "o.mp4"
            (specCoverCrop ++ "," ++ dt ++ "," ++ specFadePair { ffmpeg_major := 2 })
            (specAudioChain { ffmpeg_major := 2 })))) :=
  ⟨build_command_strategy_spec { ffmpeg_major := 6 } "bg.jpg" "m.mp3" "o.mp4"
      { text := "hello world" } {} (fun _ => false) (by decide),
   build_command_strategy_spec { ffmpeg_major := 2 } "bg.jpg" "m.mp3" "o.mp4"
      { text := "hello world" } {} (fun _ => false) (by decide)⟩

/-! ## Correctness of the wrapping pipeline (claims C3 and C10) -/

/-- Chunk-count-plus-character measure used for the `_wrap_chunks` loop. -/
def chunksM (l : List (List Char)) : Nat := l.length + lensum l

lemma lensum_cons (c : List Char) (t : List (List Char)) :
    lensum (c :: t) = c.length + lensum t := by
  simp [lensum]

lemma lensum_append (a b : List (List Char)) :
    lensum (a ++ b) = lensum a + lensum b := by
  simp [lensum]

lemma chunksM_append (a b : List (List Char)) :
    chunksM (a ++ b) = chunksM a + chunksM b := by
  simp [chunksM, lensum_append]
  omega

lemma wsEndAux_bounds (s : List Char) :
    ∀ tl p, p ≤ wsEndAux s tl p ∧ wsEndAux s tl p ≤ p + tl.length := by
  intro tl
  induction tl with
  | nil => intro p; simp [wsEndAux]
  | cons c tl ih =>
    intro p
    unfold wsEndAux
    by_cases h : isPyWS (chAt s p)
    · rw [if_pos h]
      have := ih (p + 1)
      constructor <;> [omega; (simp only [List.length_cons]; omega)]
    · rw [if_neg h]
      simp

lemma hyphenRunLenAux_le (s : List Char) :
    ∀ tl p, hyphenRunLenAux s tl p ≤ tl.length := by
  intro tl
  induction tl with
  | nil => intro p; simp [hyphenRunLenAux]
  | cons c tl ih =>
    intro p
    unfold hyphenRunLenAux
    by_cases h : chAt s p = '-'
    · rw [if_pos h]
      have := ih (p + 1)
      simp only [List.length_cons]
      omega
    · rw [if_neg h]
      simp

lemma findChunkEndAux_bounds (s : List Char) :
    ∀ tl p, tl = s.drop p → p ≤ s.length →
      p ≤ findChunkEndAux s tl p ∧ findChunkEndAux s tl p ≤ s.length := by
  intro tl
  induction tl with
  | nil => intro p _ hp; simp [findChunkEndAux, hp]
  | cons c tl ih =>
    intro p htl hp
    have hlt : p < s.length := by
      have := congrArg List.length htl
      simp [List.length_drop] at this
      omega
    have htl2 : tl = s.drop (p + 1) := by
      rw [← List.tail_drop, ← htl]
      rfl
    unfold findChunkEndAux
    by_cases h : (condHyphen s p || condWS s p || condEmdash s p) = true
    · rw [if_pos h]
      omega
    · rw [if_neg h]
      have := ih (p + 1) htl2 (by omega)
      omega

lemma sliceCL_glue (s : List Char) (i j : Nat) (hij : i ≤ j) :
    sliceCL s i j ++ s.drop j = s.drop i := by
  unfold sliceCL
  have h1 : s.drop j = List.drop (j - i) (s.drop i) := by
    rw [List.drop_drop]
    congr 1
    omega
  rw [h1, List.take_append_drop]

lemma emdash_run_ge (s : List Char) (i : Nat) (h : emdashStartB s i = true) :
    2 ≤ hyphenRunLen s i := by
  unfold emdashStartB at h
  simp only [Bool.and_eq_true, decide_eq_true_eq] at h
  exact h.1.2

lemma splitChunksGo_cover (s : List Char) :
    ∀ fuel i, s.length - i ≤ fuel → i ≤ s.length →
      (splitChunksGo s fuel i).flatten = s.drop i := by
  intro fuel
  induction fuel with
  | zero =>
    intro i hf hi
    have : i = s.length := by omega
    subst this
    simp [splitChunksGo, List.drop_length]
  | succ fuel ih =>
    intro i hf hi
    by_cases hlt : i < s.length
    · rw [splitChunksGo, if_pos hlt]
      by_cases hws : isPyWS (chAt s i)
      · rw [if_pos hws]
        have hb := wsEndAux_bounds s (s.drop (i + 1)) (i + 1)
        have hlen : (s.drop (i + 1)).length = s.length - (i + 1) := by
          simp [List.length_drop]
        have hj1 : i + 1 ≤ wsEnd s (i + 1) := by unfold wsEnd; omega
        have hj2 : wsEnd s (i + 1) ≤ s.length := by unfold wsEnd; omega
        rw [List.flatten_cons, ih (wsEnd s (i + 1)) (by omega) (by omega)]
        exact sliceCL_glue s i _ (by omega)
      · rw [if_neg hws]
        by_cases hem : emdashStartB s i
        · rw [if_pos hem]
          have hr2 : 2 ≤ hyphenRunLen s i := emdash_run_ge s i hem
          have hrle : hyphenRunLen s i ≤ s.length - i := by
            have := hyphenRunLenAux_le s (s.drop i) i
            unfold hyphenRunLen
            simp [List.length_drop] at this ⊢
            omega
          rw [List.flatten_cons, ih (i + hyphenRunLen s i) (by omega) (by omega)]
          exact sliceCL_glue s i _ (by omega)
        · rw [if_neg hem]
          have hb := findChunkEndAux_bounds s (s.drop (i + 1)) (i + 1) rfl (by omega)
          have hj1 : i + 1 ≤ findChunkEnd s (i + 1) := by unfold findChunkEnd; omega
          have hj2 : findChunkEnd s (i + 1) ≤ s.length := by unfold findChunkEnd; omega
          rw [List.flatten_cons, ih (findChunkEnd s (i + 1)) (by omega) (by omega)]
          exact sliceCL_glue s i _ (by omega)
    · rw [splitChunksGo, if_neg hlt]
      have : i = s.length := by omega
      subst this
      simp [List.drop_length]

lemma splitChunks_cover (s : List Char) : (splitChunks s).flatten = s := by
  have := splitChunksGo_cover s s.length 0 (by omega) (by omega)
  simpa [splitChunks] using this

lemma packGreedy_append (w : Nat) :
    ∀ l cl, (packGreedy w cl l).1 ++ (packGreedy w cl l).2 = l := by
  intro l
  induction l with
  | nil => intro cl; rfl
  | cons c rest ih =>
    intro cl
    unfold packGreedy
    by_cases h : cl + c.length ≤ w
    · rw [if_pos h]
      simpa using ih (cl + c.length)
    · rw [if_neg h]
      rfl

lemma packGreedy_len (w : Nat) :
    ∀ l cl, cl ≤ w → cl + lensum (packGreedy w cl l).1 ≤ w := by
  intro l
  induction l with
  | nil => intro cl hcl; simpa [lensum] using hcl
  | cons c rest ih =>
    intro cl hcl
    unfold packGreedy
    by_cases h : cl + c.length ≤ w
    · rw [if_pos h]
      have := ih (cl + c.length) h
      simp only [lensum_cons]
      omega
    · rw [if_neg h]
      simpa [lensum] using hcl

lemma packGreedy_stop (w cl : Nat) (c : List Char) (rest : List (List Char))
    (h : (packGreedy w cl (c :: rest)).1 = []) : w < cl + c.length := by
  by_contra hle
  push_neg at hle
  unfold packGreedy at h
  rw [if_pos hle] at h
  simp at h

lemma hlw_append (w cl : Nat) (chunk : List Char) :
    (handleLongWord w cl chunk).1 ++ (handleLongWord w cl chunk).2 = chunk := by
  unfold handleLongWord
  exact List.take_append_drop _ _

lemma pyRfindHyphen_lt (chunk : List Char) (hi h : Nat)
    (hf : pyRfindHyphen chunk hi = some h) : h < min hi chunk.length := by
  have hm := List.mem_of_find?_eq_some hf
  rw [List.mem_reverse] at hm
  exact List.mem_range.mp hm

lemma hlw_endIdx_le (w cl : Nat) (chunk : List Char) (hw : 1 ≤ w) :
    (handleLongWord w cl chunk).1.length ≤ w - cl := by
  simp only [handleLongWord]
  rw [if_neg (by omega : ¬ w < 1)]
  simp only [List.length_take]
  split
  · split
    · rename_i hbig x h heq
      have hlt := pyRfindHyphen_lt chunk (w - cl) h heq
      have h1 : h < w - cl := lt_of_lt_of_le hlt (Nat.min_le_left _ _)
      split
      · have h2 : h + 1 ≤ w - cl := by omega
        exact le_trans (Nat.min_le_left _ _) h2
      · exact Nat.min_le_left _ _
    · exact Nat.min_le_left _ _
  · exact Nat.min_le_left _ _

lemma hlw_pos (w : Nat) (chunk : List Char) (hw : 1 ≤ w) (hchunk : chunk ≠ []) :
    1 ≤ (handleLongWord w 0 chunk).1.length := by
  have hlen : 1 ≤ chunk.length := List.length_pos.mpr hchunk
  simp only [handleLongWord]
  rw [if_neg (by omega : ¬ w < 1)]
  simp only [List.length_take]
  split
  · split
    · rename_i hbig x h heq
      split
      · have hx : 1 ≤ h + 1 := by omega
        exact le_min_iff.mpr ⟨hx, hlen⟩
      · have hx : 1 ≤ w - 0 := by omega
        exact le_min_iff.mpr ⟨hx, hlen⟩
    · have hx : 1 ≤ w - 0 := by omega
      exact le_min_iff.mpr ⟨hx, hlen⟩
  · have hx : 1 ≤ w - 0 := by omega
    exact le_min_iff.mpr ⟨hx, hlen⟩

lemma isAllWS_nonWS (c : List Char) (h : isAllWS c = true) : nonWS c = [] := by
  unfold nonWS
  rw [List.filter_eq_nil_iff]
  intro a ha
  have := List.all_eq_true.mp h a ha
  simp [this]

lemma lensum_dropLast_le (l : List (List Char)) : lensum l.dropLast ≤ lensum l := by
  induction l with
  | nil => simp [lensum]
  | cons c t ih =>
    cases t with
    | nil => simp [lensum]
    | cons d t2 =>
      have hstep : (c :: d :: t2).dropLast = c :: (d :: t2).dropLast := rfl
      rw [hstep, lensum_cons, lensum_cons]
      omega

lemma nonWS_append (a b : List Char) : nonWS (a ++ b) = nonWS a ++ nonWS b := by
  unfold nonWS
  exact List.filter_append _ _

lemma dropTrailWS_lensum_le (l : List (List Char)) :
    lensum (dropTrailWS l) ≤ lensum l := by
  unfold dropTrailWS
  split
  · split
    · exact lensum_dropLast_le l
    · exact le_refl _
  · exact le_refl _

lemma dropTrailWS_flatten_nonWS (l : List (List Char)) :
    nonWS (dropTrailWS l).flatten = nonWS l.flatten := by
  unfold dropTrailWS
  split
  · rename_i last hl
    split
    · rename_i hws
      have hne : l ≠ [] := by
        intro h
        subst h
        simp at hl
      have hlast : l.getLast hne = last := by
        have := List.getLast?_eq_getLast l hne
        rw [hl] at this
        exact (Option.some.injEq _ _).mp this.symm
      have hdecomp : l.dropLast ++ [last] = l := by
        rw [← hlast]
        exact List.dropLast_append_getLast hne
      conv_rhs => rw [← hdecomp]
      rw [List.flatten_append, nonWS_append]
      have hz : nonWS [last].flatten = [] := by
        simpa using isAllWS_nonWS last hws
      rw [hz, List.append_nil]
    · rfl
  · rfl

lemma wrapFit_cons (w : Nat) (t : List (List Char)) (c : List Char)
    (r : List (List Char)) :
    wrapFit w (t, c :: r) =
      if w < c.length then
        (t ++ [(handleLongWord w (lensum t) c).1],
          (handleLongWord w (lensum t) c).2 :: r)
      else (t, c :: r) := rfl

lemma wrapFit_flatten (w : Nat) (t rest : List (List Char)) :
    (wrapFit w (t, rest)).1.flatten ++ (wrapFit w (t, rest)).2.flatten =
      t.flatten ++ rest.flatten := by
  cases rest with
  | nil => rfl
  | cons c r =>
    rw [wrapFit_cons]
    by_cases hbig : w < c.length
    · rw [if_pos hbig]
      have := hlw_append w (lensum t) c
      simp only [List.flatten_append, List.flatten_cons]
      simp only [List.flatten_nil, List.append_nil]
      rw [List.append_assoc, ← List.append_assoc (handleLongWord w (lensum t) c).1, this]
    · rw [if_neg hbig]

lemma wrapFit_len (w : Nat) (hw : 1 ≤ w) (t rest : List (List Char))
    (ht : lensum t ≤ w) : lensum (wrapFit w (t, rest)).1 ≤ w := by
  cases rest with
  | nil => exact ht
  | cons c r =>
    rw [wrapFit_cons]
    by_cases hbig : w < c.length
    · rw [if_pos hbig]
      have h1 := hlw_endIdx_le w (lensum t) c hw
      have hz : lensum ([] : List (List Char)) = 0 := rfl
      rw [lensum_append, lensum_cons, hz]
      omega
    · rw [if_neg hbig]
      exact ht

lemma wrapFit_M_le (w : Nat) (t rest : List (List Char)) :
    chunksM (wrapFit w (t, rest)).2 ≤ chunksM rest := by
  cases rest with
  | nil => exact le_refl _
  | cons c r =>
    rw [wrapFit_cons]
    by_cases hbig : w < c.length
    · rw [if_pos hbig]
      have hlen : (handleLongWord w (lensum t) c).2.length ≤ c.length := by
        simp [handleLongWord, List.length_drop]
      simp only [chunksM, List.length_cons, lensum_cons]
      omega
    · rw [if_neg hbig]

lemma wrapStep_spec (w : Nat) (hw : 1 ≤ w) (e : Bool) (c0 : List Char)
    (rest0 : List (List Char)) :
    chunksM (wrapStep w e (c0 :: rest0)).2 < chunksM (c0 :: rest0) ∧
    lensum (wrapStep w e (c0 :: rest0)).1 ≤ w ∧
    nonWS ((wrapStep w e (c0 :: rest0)).1.flatten ++
        (wrapStep w e (c0 :: rest0)).2.flatten) =
      nonWS (c0 :: rest0).flatten := by
  have hM0 : 1 + c0.length + chunksM rest0 = chunksM (c0 :: rest0) := by
    simp [chunksM, lensum_cons]
    omega
  simp only [wrapStep]
  set chunks1 := if e && isAllWS c0 then rest0 else c0 :: rest0 with hch1
  set pk := packGreedy w 0 chunks1 with hpkdef
  have hsplit : pk.1 ++ pk.2 = chunks1 := packGreedy_append w chunks1 0
  have hMsplit : chunksM pk.1 + chunksM pk.2 = chunksM chunks1 := by
    rw [← chunksM_append, hsplit]
  have hlen1 : lensum pk.1 ≤ w := by
    have := packGreedy_len w chunks1 0 (by omega)
    rw [← hpkdef] at this
    omega
  have hfit_flat := wrapFit_flatten w pk.1 pk.2
  have hfit_len := wrapFit_len w hw pk.1 pk.2 hlen1
  have hfit_M := wrapFit_M_le w pk.1 pk.2
  have hprod : (pk.1, pk.2) = pk := rfl
  rw [hprod] at hfit_flat hfit_len hfit_M
  have hchunks1M : chunksM chunks1 ≤ chunksM (c0 :: rest0) := by
    rw [hch1]
    by_cases hd : e && isAllWS c0
    · rw [if_pos hd]
      omega
    · rw [if_neg hd]
  have hchunks1flat : nonWS chunks1.flatten = nonWS (c0 :: rest0).flatten := by
    rw [hch1]
    by_cases hd : (e && isAllWS c0) = true
    · rw [if_pos hd]
      have hws := isAllWS_nonWS c0 (Bool.and_elim_right hd)
      simp only [List.flatten_cons]
      unfold nonWS at hws ⊢
      rw [List.filter_append, hws, List.nil_append]
    · rw [if_neg hd]
  refine ⟨?_, ?_, ?_⟩
  · -- measure decrease
    have hdec : chunksM (wrapFit w pk).2 < chunksM (c0 :: rest0) := by
      by_cases hd : (e && isAllWS c0) = true
      · have : chunksM chunks1 < chunksM (c0 :: rest0) := by
          rw [hch1, if_pos hd]
          omega
        omega
      · have hc1 : chunks1 = c0 :: rest0 := by rw [hch1, if_neg hd]
        rcases hpk1 : pk.1 with _ | ⟨p1, pt⟩
        · -- nothing packed: the head chunk is longer than the width
          have hpk2 : pk.2 = c0 :: rest0 := by
            have := hsplit
            rw [hpk1] at this
            simpa [hc1] using this
          have hstop : w < 0 + c0.length := by
            apply packGreedy_stop w 0 c0 rest0
            rw [hc1] at hpkdef
            rw [← hpkdef, hpk1]
          have hc0ne : c0 ≠ [] := by
            intro h
            rw [h] at hstop
            simp at hstop
          have hpair : pk = (pk.1, c0 :: rest0) := by rw [← hpk2]
          have hfit : (wrapFit w pk).2 =
              (handleLongWord w (lensum pk.1) c0).2 :: rest0 := by
            rw [hpair, wrapFit_cons, if_pos (by omega : w < c0.length)]
          have hpc1 : 1 ≤ (handleLongWord w 0 c0).1.length :=
            hlw_pos w c0 hw hc0ne
          have hpcsum : (handleLongWord w 0 c0).1.length +
              (handleLongWord w 0 c0).2.length = c0.length := by
            have := congrArg List.length (hlw_append w 0 c0)
            simpa [List.length_append] using this
          rw [hfit, hpk1]
          simp only [lensum, List.map_nil, List.sum_nil]
          simp only [chunksM, List.length_cons, lensum_cons]
          omega
        · have hpk1len : 1 ≤ pk.1.length := by rw [hpk1]; simp
          have : chunksM pk.2 < chunksM chunks1 := by
            have h1 : 1 ≤ chunksM pk.1 := by
              simp only [chunksM]
              omega
            omega
          have h2 : chunksM chunks1 = chunksM (c0 :: rest0) := by rw [hc1]
          omega
    exact hdec
  · calc lensum (dropTrailWS (wrapFit w pk).1) ≤ lensum (wrapFit w pk).1 :=
        dropTrailWS_lensum_le _
    _ ≤ w := hfit_len
  · rw [nonWS_append, dropTrailWS_flatten_nonWS, ← nonWS_append, hfit_flat,
      ← List.flatten_append, hsplit, hchunks1flat]

lemma flatten_length_lensum (l : List (List Char)) : l.flatten.length = lensum l := by
  rw [List.length_flatten]
  rfl

lemma wrapChunksGo_cons (w fuel : Nat) (e : Bool) (c0 : List Char)
    (rest0 : List (List Char)) :
    wrapChunksGo w (fuel + 1) e (c0 :: rest0) =
      (if (wrapStep w e (c0 :: rest0)).1.isEmpty then
        wrapChunksGo w fuel (e || !(wrapStep w e (c0 :: rest0)).1.isEmpty)
          (wrapStep w e (c0 :: rest0)).2
      else
        (wrapStep w e (c0 :: rest0)).1.flatten ::
          wrapChunksGo w fuel (e || !(wrapStep w e (c0 :: rest0)).1.isEmpty)
            (wrapStep w e (c0 :: rest0)).2) := rfl

lemma wrapChunksGo_bound (w : Nat) (hw : 1 ≤ w) :
    ∀ fuel (e : Bool) chunks line, line ∈ wrapChunksGo w fuel e chunks →
      line.length ≤ w := by
  intro fuel
  induction fuel with
  | zero =>
    intro e chunks line h
    exact absurd h (List.not_mem_nil _)
  | succ fuel ih =>
    intro e chunks line h
    cases chunks with
    | nil => exact absurd h (List.not_mem_nil _)
    | cons c0 rest0 =>
      rw [wrapChunksGo_cons] at h
      by_cases hemp : (wrapStep w e (c0 :: rest0)).1.isEmpty
      · rw [if_pos hemp] at h
        exact ih _ _ line h
      · rw [if_neg hemp] at h
        rcases List.mem_cons.mp h with h1 | h2
        · rw [h1, flatten_length_lensum]
          exact (wrapStep_spec w hw e c0 rest0).2.1
        · exact ih _ _ line h2

lemma wrapChunksGo_nonWS (w : Nat) (hw : 1 ≤ w) :
    ∀ fuel (e : Bool) chunks, chunksM chunks < fuel →
      nonWS (wrapChunksGo w fuel e chunks).flatten = nonWS chunks.flatten := by
  intro fuel
  induction fuel with
  | zero =>
    intro e chunks h
    exact absurd h (Nat.not_lt_zero _)
  | succ fuel ih =>
    intro e chunks h
    cases chunks with
    | nil => rfl
    | cons c0 rest0 =>
      have hspec := wrapStep_spec w hw e c0 rest0
      have hM : chunksM (wrapStep w e (c0 :: rest0)).2 < fuel := by
        have := hspec.1
        omega
      have hout := ih (e || !(wrapStep w e (c0 :: rest0)).1.isEmpty)
        (wrapStep w e (c0 :: rest0)).2 hM
      rw [wrapChunksGo_cons]
      by_cases hemp : (wrapStep w e (c0 :: rest0)).1.isEmpty
      · rw [if_pos hemp, hout]
        have h1 : (wrapStep w e (c0 :: rest0)).1 = [] := List.isEmpty_iff.mp hemp
        have := hspec.2.2
        rw [h1] at this
        simpa using this
      · rw [if_neg hemp, List.flatten_cons, nonWS_append, hout, ← nonWS_append]
        exact hspec.2.2

lemma wrapChunks_bound (w : Nat) (hw : 1 ≤ w) (chunks : List (List Char))
    (line : List Char) (h : line ∈ wrapChunks w chunks) : line.length ≤ w := by
  unfold wrapChunks at h
  exact wrapChunksGo_bound w hw _ _ _ line h

lemma wrapChunks_nonWS (w : Nat) (hw : 1 ≤ w) (chunks : List (List Char)) :
    nonWS (wrapChunks w chunks).flatten = nonWS chunks.flatten := by
  unfold wrapChunks
  refine wrapChunksGo_nonWS w hw _ false chunks ?_
  simp only [chunksM]
  omega

lemma nonWS_cons (c : Char) (l : List Char) :
    nonWS (c :: l) = (if isPyWS c then [] else [c]) ++ nonWS l := by
  unfold nonWS
  rw [List.filter_cons]
  by_cases h : isPyWS c
  · simp [h]
  · simp [h]

lemma nonWS_ws (c : Char) (l : List Char) (h : isPyWS c = true) :
    nonWS (c :: l) = nonWS l := by
  rw [nonWS_cons, if_pos h, List.nil_append]

lemma nonWS_translate (l : List Char) : nonWS (pyTranslateWS l) = nonWS l := by
  induction l with
  | nil => rfl
  | cons c rest ih =>
    unfold pyTranslateWS at ih ⊢
    rw [List.map_cons]
    by_cases hc : c = '\t' ∨ c = '\n' ∨ c = '\x0b' ∨ c = '\x0c' ∨ c = '\r' ∨ c = ' '
    · rw [if_pos hc]
      have hws : isPyWS c = true := by
        rcases hc with h | h | h | h | h | h <;> subst h <;> decide
      rw [nonWS_ws ' ' _ (by decide), nonWS_ws c rest hws, ih]
    · rw [if_neg hc]
      rw [nonWS_cons, nonWS_cons, ih]

lemma nonWS_expandtabs : ∀ (l : List Char) (col : Nat),
    nonWS (pyExpandtabs l col) = nonWS l := by
  intro l
  induction l with
  | nil => intro col; rfl
  | cons c rest ih =>
    intro col
    unfold pyExpandtabs
    by_cases h1 : c = '\t'
    · rw [if_pos h1, nonWS_append]
      have hrep : isAllWS (List.replicate (8 - col % 8) ' ') = true := by
        unfold isAllWS
        rw [List.all_eq_true]
        intro a ha
        have := List.eq_of_mem_replicate ha
        subst this
        decide
      rw [isAllWS_nonWS _ hrep, List.nil_append, ih]
      subst h1
      rw [nonWS_ws '\t' rest (by decide)]
    · rw [if_neg h1]
      by_cases h2 : c = '\n' ∨ c = '\r'
      · rw [if_pos h2, nonWS_cons, nonWS_cons, ih]
      · rw [if_neg h2, nonWS_cons, nonWS_cons, ih]

lemma nonWS_munge (l : List Char) : nonWS (pyMunge l) = nonWS l := by
  unfold pyMunge
  rw [nonWS_translate, nonWS_expandtabs]

lemma isLineBreak_ws (c : Char) (h : isLineBreak c = true) : isPyWS c = true := by
  unfold isLineBreak at h
  unfold isPyWS
  simp only [Bool.or_eq_true, beq_iff_eq] at h ⊢
  rcases h with (((((((((h | h) | h) | h) | h) | h) | h) | h) | h) | h) <;>
    subst h <;> decide

lemma pySplitlinesGo_nonWS : ∀ (l acc : List Char) (afterCR : Bool),
    (afterCR = true → acc = []) →
    nonWS (pySplitlinesGo l acc afterCR).flatten = nonWS acc.reverse ++ nonWS l := by
  intro l
  induction l with
  | nil =>
    intro acc afterCR hcr
    unfold pySplitlinesGo
    by_cases h : acc.isEmpty
    · rw [if_pos h]
      have ha : acc = [] := List.isEmpty_iff.mp h
      subst ha
      rfl
    · rw [if_neg h]
      show nonWS (acc.reverse ++ []) = nonWS acc.reverse ++ nonWS []
      rw [List.append_nil]
      exact (List.append_nil _).symm
  | cons c rest ih =>
    intro acc afterCR hcr
    unfold pySplitlinesGo
    by_cases h1 : afterCR = true ∧ c = '\n'
    · rw [if_pos h1]
      have hacc : acc = [] := hcr h1.1
      subst hacc
      rw [ih [] false (by simp)]
      rw [h1.2, nonWS_ws '\n' rest (by decide)]
    · rw [if_neg h1]
      by_cases h2 : c = '\r'
      · rw [if_pos h2]
        rw [List.flatten_cons, nonWS_append, ih [] true (fun _ => rfl)]
        rw [h2, nonWS_ws '\r' rest (by decide)]
        show nonWS acc.reverse ++ ([] ++ nonWS rest) = nonWS acc.reverse ++ nonWS rest
        rw [List.nil_append]
      · rw [if_neg h2]
        by_cases h3 : isLineBreak c = true
        · rw [if_pos h3]
          rw [List.flatten_cons, nonWS_append, ih [] false (by simp)]
          rw [nonWS_ws c rest (isLineBreak_ws c h3)]
          show nonWS acc.reverse ++ ([] ++ nonWS rest) = nonWS acc.reverse ++ nonWS rest
          rw [List.nil_append]
        · rw [if_neg h3]
          rw [ih (c :: acc) false (by simp)]
          rw [List.reverse_cons, nonWS_append, nonWS_cons c rest]
          have hone : nonWS [c] = if isPyWS c then [] else [c] := by
            rw [nonWS_cons c []]
            exact List.append_nil _
          rw [hone, List.append_assoc]

lemma pySplitlines_nonWS (l : List Char) :
    nonWS (pySplitlines l).flatten = nonWS l := by
  unfold pySplitlines
  rw [pySplitlinesGo_nonWS l [] false (by simp)]
  rfl

lemma nonWS_dropWhile (l : List Char) : nonWS (l.dropWhile isPyWS) = nonWS l := by
  induction l with
  | nil => rfl
  | cons c rest ih =>
    rw [List.dropWhile_cons]
    by_cases h : isPyWS c = true
    · rw [if_pos h, ih, nonWS_ws c rest h]
    · rw [if_neg h]

lemma nonWS_reverse (l : List Char) : nonWS l.reverse = (nonWS l).reverse := by
  unfold nonWS
  exact List.filter_reverse _ _

lemma nonWS_strip (l : List Char) : nonWS (pyStrip l) = nonWS l := by
  unfold pyStrip
  rw [nonWS_reverse, nonWS_dropWhile, nonWS_reverse, List.reverse_reverse,
    nonWS_dropWhile]

lemma strip_nil_of_nonWS_nil (l : List Char) (h : nonWS l = []) : pyStrip l = [] := by
  have hd : l.dropWhile isPyWS = [] := by
    rw [List.dropWhile_eq_nil_iff]
    intro x hx
    have := List.filter_eq_nil_iff.mp h x hx
    simpa using this
  unfold pyStrip
  rw [hd]
  rfl

lemma wrapParagraphs_spec (w : Nat) (hw : 1 ≤ w) : ∀ ps : List (List Char),
    ∃ lines : List (List Char),
      wrapParagraphs w ps = .ok lines ∧
      (∀ l ∈ lines, l.length ≤ w) ∧
      nonWS lines.flatten = nonWS ps.flatten := by
  intro ps
  induction ps with
  | nil => exact ⟨[], rfl, by simp, rfl⟩
  | cons p rest ih =>
    obtain ⟨lr, hlr, hbound, hflat⟩ := ih
    unfold wrapParagraphs
    by_cases hemp : (pyStrip p).isEmpty
    · rw [if_pos hemp]
      refine ⟨lr, hlr, hbound, ?_⟩
      have h0 : nonWS p = [] := by
        have hs := nonWS_strip p
        rw [List.isEmpty_iff.mp hemp] at hs
        exact hs.symm
      rw [hflat, List.flatten_cons, nonWS_append, h0, List.nil_append]
    · rw [if_neg hemp]
      have hpw : pyWrap w (pyStrip p) =
          .ok (wrapChunks w (splitChunks (pyMunge (pyStrip p)))) := by
        unfold pyWrap
        rw [if_neg (by omega : ¬ w = 0)]
      rw [hpw, hlr]
      refine ⟨wrapChunks w (splitChunks (pyMunge (pyStrip p))) ++ lr, rfl, ?_, ?_⟩
      · intro l hl
        rcases List.mem_append.mp hl with h | h
        · exact wrapChunks_bound w hw _ l h
        · exact hbound l h
      · rw [List.flatten_append, nonWS_append, wrapChunks_nonWS w hw,
          splitChunks_cover, nonWS_munge, nonWS_strip, hflat, List.flatten_cons,
          nonWS_append]

lemma wrap_text_main (text : String) (maxChars : Nat) (hmc : 1 ≤ maxChars) :
    ∃ lines : List String,
      wrap_text text maxChars = .ok lines ∧
      lines ≠ [] ∧
      (∀ l ∈ lines, l.length ≤ maxChars) ∧
      nonWS (lines.map String.data).flatten = nonWS text.data ∧
      (wrapParagraphs maxChars (pySplitlines text.data) = .ok [] →
        lines = [String.mk (pyStrip text.data)]) := by
  obtain ⟨l0, hl0, hbound, hflat⟩ := wrapParagraphs_spec maxChars hmc
    (pySplitlines text.data)
  have hpara : nonWS (pySplitlines text.data).flatten = nonWS text.data :=
    pySplitlines_nonWS _
  unfold wrap_text
  rw [hl0]
  dsimp only
  by_cases hemp : l0.isEmpty
  · rw [if_pos hemp]
    have h0 : l0 = [] := List.isEmpty_iff.mp hemp
    have htext : nonWS text.data = [] := by
      rw [← hpara, ← hflat, h0]
      rfl
    have hstrip : pyStrip text.data = [] := strip_nil_of_nonWS_nil _ htext
    refine ⟨[String.mk (pyStrip text.data)], rfl, by simp, ?_, ?_, fun _ => rfl⟩
    · intro l hl
      rw [List.mem_singleton] at hl
      subst hl
      have hlen : (String.mk (pyStrip text.data)).length = 0 := by
        rw [hstrip]
        rfl
      omega
    · show nonWS (pyStrip text.data ++ []) = nonWS text.data
      rw [List.append_nil, nonWS_strip]
  · rw [if_neg hemp]
    have hne : l0 ≠ [] := fun h => hemp (by rw [h]; rfl)
    refine ⟨l0.map String.mk, rfl, ?_, ?_, ?_, ?_⟩
    · intro h
      exact hne (List.map_eq_nil_iff.mp h)
    · intro l hl
      rw [List.mem_map] at hl
      obtain ⟨a, ha, hae⟩ := hl
      rw [← hae]
      exact hbound a ha
    · have hmm : ∀ L : List (List Char), (L.map String.mk).map String.data = L := by
        intro L
        induction L with
        | nil => rfl
        | cons a t iht => rw [List.map_cons, List.map_cons, iht]
      rw [hmm, hflat, hpara]
    · intro hh
      have : l0 = [] := by
        injection hh
      exact absurd this hne

lemma intercalate_go_data (s : String) :
    ∀ (l : List String) (acc : String),
      ∃ t, (String.intercalate.go acc s l).data = acc.data ++ t := by
  intro l
  induction l with
  | nil =>
    intro acc
    exact ⟨[], (List.append_nil _).symm⟩
  | cons a as ih =>
    intro acc
    obtain ⟨t, ht⟩ := ih (acc ++ s ++ a)
    have hgo : String.intercalate.go acc s (a :: as) =
        String.intercalate.go (acc ++ s ++ a) s as := rfl
    refine ⟨s.data ++ (a.data ++ t), ?_⟩
    rw [hgo, ht, String.data_append, String.data_append, List.append_assoc,
      List.append_assoc]

lemma intercalate_cons_data (s a : String) (l : List String) :
    ∃ t, (String.intercalate s (a :: l)).data = a.data ++ t := by
  have h : String.intercalate s (a :: l) = String.intercalate.go a s l := rfl
  rw [h]
  exact intercalate_go_data s l a

lemma drawtextLine_head (fa ba : String) (fs : Int) (fc : String) (y : Int)
    (line : String) :
    ∃ v, (drawtextLine fa ba fs fc y line).data = "drawtext=text=".data ++ v := by
  unfold drawtextLine
  simp only [String.data_append, List.append_assoc]
  exact ⟨_, rfl⟩

lemma intercalate_drawtext_ne_null (fa ba : String) (fs : Int) (fc : String)
    (y lh : Int) (i : Nat) (l0 : String) (ls : List String) :
    String.intercalate "," (drawtextFilters fa ba fs fc y lh i (l0 :: ls)) ≠
      "null" := by
  intro hcontra
  have hfil : drawtextFilters fa ba fs fc y lh i (l0 :: ls) =
      drawtextLine fa ba fs fc (y + (i : Int) * lh) l0 ::
        drawtextFilters fa ba fs fc y lh (i + 1) ls := rfl
  rw [hfil] at hcontra
  obtain ⟨t, ht⟩ := intercalate_cons_data ","
    (drawtextLine fa ba fs fc (y + (i : Int) * lh) l0)
    (drawtextFilters fa ba fs fc y lh (i + 1) ls)
  rw [hcontra] at ht
  obtain ⟨v, hv⟩ := drawtextLine_head fa ba fs fc (y + (i : Int) * lh) l0
  rw [hv, List.append_assoc] at ht
  have hlen := congrArg List.length ht
  rw [List.length_append] at hlen
  have h4 : ("null".data).length = 4 := by decide
  have h14 : ("drawtext=text=".data).length = 14 := by decide
  omega

/-- **C3**: for every text and every `max_chars ≥ 1`, `_wrap_text`
succeeds and returns at least one line (the paragraph loop splits the
text on line breaks and skips paragraphs that strip to empty); no
returned line is longer than `max_chars` — in particular when every
whitespace-delimited token fits, and even when an over-long token is
hard-broken by `_handle_long_word`; concatenating the returned lines
reproduces every non-whitespace character of the original text in order,
so nothing is lost at a hard break; and when wrapping yields no lines at
all the result is the single stripped original text. -/
theorem wrap_text_spec (text : String) (maxChars : Nat) (hmc : 1 ≤ maxChars) :
    ∃ lines : List String,
      wrap_text text maxChars = .ok lines ∧
      lines ≠ [] ∧
      (∀ l ∈ lines, l.length ≤ maxChars) ∧
      nonWS (lines.map String.data).flatten = nonWS text.data ∧
      (wrapParagraphs maxChars (pySplitlines text.data) = .ok [] →
        lines = [String.mk (pyStrip text.data)]) :=
  wrap_text_main text maxChars hmc

/-- Witness for C3: wrapping `"hello world"` at width 5. -/
theorem wrap_text_spec_witness :
    ∃ lines : List String,
      wrap_text "hello world" 5 = .ok lines ∧
      lines ≠ [] ∧
      (∀ l ∈ lines, l.length ≤ 5) ∧
      nonWS (lines.map String.data).flatten = nonWS "hello world".data ∧
      (wrapParagraphs 5 (pySplitlines "hello world".data) = .ok [] →
        lines = [String.mk (pyStrip "hello world".data)]) :=
  wrap_text_spec "hello world" 5 (by decide)

/-- C10 counterexample: `_wrap_text` does not return a line list for
*every* `max_chars` — at width 0 `textwrap.wrap` raises `ValueError`,
which `_wrap_text` does not catch, so the non-empty-result guarantee
(and with it the unreachability argument) only holds for
`max_chars ≥ 1`. -/
theorem wrap_text_zero_width_error :
    wrap_text "a" 0 = .error "ValueError: invalid width 0 (must be > 0)" := rfl

/-- **C10** (amended: for `max_chars ≥ 1`): `_wrap_text` returns a
non-empty list of lines — falling back to the single trimmed original
text, possibly the empty string — so the `"null"` pass-through branch of
`_build_drawtext_chain` is never taken: the built chain is a
comma-joined filter list headed by a `drawtext` filter, never the string
`"null"`, for every text including empty or whitespace-only ones. -/
theorem drawtext_chain_nonnull (cfg : TextConfig) (fsFont : String → Bool)
    (hmc : 1 ≤ cfg.max_chars) :
    ∃ chain, build_drawtext_chain cfg fsFont = .ok chain ∧ chain ≠ "null" := by
  obtain ⟨lines, hwt, hne, hchain⟩ := build_drawtext_chain_spec cfg fsFont hmc
  cases lines with
  | nil => exact absurd rfl hne
  | cons l0 ls =>
    exact ⟨_, hchain, intercalate_drawtext_ne_null _ _ _ _ _ _ _ _ _⟩

/-- Witness for C10: the default text configuration with a
whitespace-only text still yields a non-`"null"` drawtext chain. -/
theorem drawtext_chain_nonnull_witness :
    ∃ chain, build_drawtext_chain { text := "  " } (fun _ => false) = .ok chain ∧
      chain ≠ "null" :=
  drawtext_chain_nonnull { text := "  " } (fun _ => false) (by decide)

end MoodLoop
